import Mathlib

/-!
Verification of the Mystery Maze repository.

This file gives a shallow embedding of the maze data model, the recursive
backtracking generator, and the turn engine of `src/mystery_maze.py`
(plus the earlier revision `src/maze.py` for the refinement claim), and
proves the specified properties about them.

The Python generator `Mystery_Maze.__visit` is a recursive function with an
inner while loop; it is embedded as the fuel indexed function `visitLoop`
(the body of the while loop, with the recursive call to `__visit` inlined
as mark-then-loop) together with the wrapper `visit`.  The global random
number generator consumed by `random.choice` is modelled by a function
`rng : Nat -> Nat` together with a counter that is threaded through the
computation; `random.choice l` is modelled as indexing `l` at
`rng i % l.length`.
-/

namespace MysteryMaze

abbrev Coords := Int × Int

/-- Embedding of class `Maze_Tile` of `src/mystery_maze.py`. -/
structure Maze_Tile where
  coords : Coords
  revealed : Bool
  path : Bool
  visited : Bool
deriving DecidableEq

/-- Embedding of class `Direction` (shared by both revisions). -/
inductive Direction where
  | NORTH
  | SOUTH
  | WEST
  | EAST
deriving DecidableEq

/-- Embedding of class `Mystery_Maze`: the grid is modelled as a total
function on coordinates; the Python dict only ever holds the keys in
`[0,width) x [0,height)` and is only ever read inside that range. -/
structure Mystery_Maze where
  width : Int
  height : Int
  grid : Coords → Maze_Tile

/-- The dimension normalization at the top of `Mystery_Maze.__init__`:
clamp to 3, else force odd by incrementing. -/
def normalize_dim (n : Int) : Int :=
  if n < 3 then 3
  else if n % 2 ≠ 1 then n + 1
  else n

/-- Tiles are initialized as shrouded walls carrying their own coords. -/
def init_grid : Coords → Maze_Tile :=
  fun c => { coords := c, revealed := false, path := false, visited := false }

/-- Point update of the grid (Python mutates the tile object in place). -/
def updateGrid (g : Coords → Maze_Tile) (c : Coords) (f : Maze_Tile → Maze_Tile) :
    Coords → Maze_Tile :=
  fun e => if e = c then f (g c) else g e

/-- First two statements of `__visit`: carve the current tile and mark it
visited. -/
def carveMark (m : Mystery_Maze) (c : Coords) : Mystery_Maze :=
  { m with grid := updateGrid m.grid c (fun t => { t with path := true, visited := true }) }

/-- Carving of a hallway tile inside the loop of `__visit`. -/
def carveHall (m : Mystery_Maze) (c : Coords) : Mystery_Maze :=
  { m with grid := updateGrid m.grid c (fun t => { t with path := true }) }

/-- The `next_tile_coords` computed per direction in `__visit`. -/
def next_tile_coords (x y : Int) : Direction → Coords
  | Direction.NORTH => (x, y - 2)
  | Direction.SOUTH => (x, y + 2)
  | Direction.WEST => (x - 2, y)
  | Direction.EAST => (x + 2, y)

/-- The `hallway_coords` computed per direction in `__visit`. -/
def hallway_coords (x y : Int) : Direction → Coords
  | Direction.NORTH => (x, y - 1)
  | Direction.SOUTH => (x, y + 1)
  | Direction.WEST => (x - 1, y)
  | Direction.EAST => (x + 1, y)

/-- The `unvisited_neighbors` list built at the top of the while loop of
`__visit`, in source order NORTH, SOUTH, WEST, EAST. -/
def unvisited_neighbors (m : Mystery_Maze) (x y : Int) : List Direction :=
  (if y > 1 ∧ (m.grid (x, y - 2)).visited = false then [Direction.NORTH] else []) ++
  (if y < m.height - 2 ∧ (m.grid (x, y + 2)).visited = false then [Direction.SOUTH] else []) ++
  (if x > 1 ∧ (m.grid (x - 2, y)).visited = false then [Direction.WEST] else []) ++
  (if x < m.width - 2 ∧ (m.grid (x + 2, y)).visited = false then [Direction.EAST] else [])

/-- The while loop of `Mystery_Maze.__visit`, with the recursive call
`self.__visit(next_tile_coords)` inlined as carve-and-mark followed by the
loop at the next cell.  Fuel indexed; `none` means the fuel ran out. -/
def visitLoop (fuel : Nat) (rng : Nat → Nat) (i : Nat) (m : Mystery_Maze) (c : Coords) :
    Option (Mystery_Maze × Nat) :=
  match fuel with
  | 0 => none
  | fuel + 1 =>
    match unvisited_neighbors m c.1 c.2 with
    | [] => some (m, i)
    | d :: ds =>
      let dir := (d :: ds).getD (rng i % (d :: ds).length) d
      let nc := next_tile_coords c.1 c.2 dir
      let hc := hallway_coords c.1 c.2 dir
      match visitLoop fuel rng (i + 1) (carveMark (carveHall m hc) nc) nc with
      | none => none
      | some mi => visitLoop fuel rng mi.2 mi.1 c

/-- `Mystery_Maze.__visit`: carve and mark the cell, then run the loop. -/
def visit (fuel : Nat) (rng : Nat → Nat) (i : Nat) (m : Mystery_Maze) (c : Coords) :
    Option (Mystery_Maze × Nat) :=
  match fuel with
  | 0 => none
  | fuel + 1 => visitLoop fuel rng i (carveMark m c) c

/-- `exit_coords = (1, 0)` from `Mystery_Maze.__init__`. -/
def exit_coords : Coords := (1, 0)

/-- `entry_coords = (self.width - 2, self.height - 1)`. -/
def entry_coords_of (w h : Int) : Coords := (w - 2, h - 1)

/-- The tail of `Mystery_Maze.__init__`: force the exit and entry tiles to
be revealed path tiles. -/
def punch (m : Mystery_Maze) : Mystery_Maze :=
  let m1 := { m with
    grid := updateGrid m.grid exit_coords
      (fun t => { t with path := true, revealed := true }) }
  { m1 with
    grid := updateGrid m1.grid (entry_coords_of m1.width m1.height)
      (fun t => { t with path := true, revealed := true }) }

/-- Full constructor `Mystery_Maze.__init__`: normalize dimensions, build
the all-wall grid, run the generator from `(1, 1)`, then add entry/exit. -/
def mystery_maze_new (width height : Int) (rng : Nat → Nat) (fuel : Nat) :
    Option Mystery_Maze :=
  let w := normalize_dim width
  let h := normalize_dim height
  let m0 : Mystery_Maze := { width := w, height := h, grid := init_grid }
  match visit fuel rng 0 m0 (1, 1) with
  | none => none
  | some mi => some (punch mi.1)

/-- Destination computation at the top of `Game.__take_step`. -/
def dest_coords (p : Coords) : Direction → Coords
  | Direction.NORTH => (p.1, p.2 - 1)
  | Direction.SOUTH => (p.1, p.2 + 1)
  | Direction.WEST => (p.1 - 1, p.2)
  | Direction.EAST => (p.1 + 1, p.2)

/-- In-bounds predicate used by the bounds check of `Game.__take_step`. -/
def inBounds (m : Mystery_Maze) (c : Coords) : Prop :=
  0 ≤ c.1 ∧ c.1 < m.width ∧ 0 ≤ c.2 ∧ c.2 < m.height

instance (m : Mystery_Maze) (c : Coords) : Decidable (inBounds m c) := by
  unfold inBounds; infer_instance

/-- Embedding of `Game.__take_step` of `src/mystery_maze.py`.  Returns the
updated maze together with `(is_success, next_position)`. -/
def take_step (m : Mystery_Maze) (pos : Coords) (dir : Direction) :
    Mystery_Maze × Bool × Coords :=
  let dc := dest_coords pos dir
  if dc.1 < 0 ∨ m.width ≤ dc.1 ∨ dc.2 < 0 ∨ m.height ≤ dc.2 then
    (m, false, pos)
  else
    let m1 := { m with grid := updateGrid m.grid dc (fun t => { t with revealed := true }) }
    let s := (m1.grid dc).path
    (m1, s, if s then dc else pos)

/-- `self.exit`, the tile stored at `exit_coords`. -/
def exit_tile (m : Mystery_Maze) : Maze_Tile := m.grid exit_coords

/-- `self.entry`, the tile stored at `entry_coords`. -/
def entry_tile (m : Mystery_Maze) : Maze_Tile := m.grid (entry_coords_of m.width m.height)

/-- The mutable state of class `Game` that the core logic touches. -/
structure Game where
  maze : Mystery_Maze
  player_position : Coords

/-- One pass through the body of `Game.__game_loop` up to the win check:
an arrow key maps to `some dir` and triggers `__take_step`; any other
input (including none) leaves the state unchanged. -/
def game_loop_iter (g : Game) (input : Option Direction) : Game :=
  match input with
  | none => g
  | some dir =>
    let r := take_step g.maze g.player_position dir
    { maze := r.1, player_position := r.2.2 }

/-- The win predicate `self.player_position == self.maze.exit.coords`. -/
def did_win (g : Game) : Prop :=
  g.player_position = (exit_tile g.maze).coords

instance (g : Game) : Decidable (did_win g) := by
  unfold did_win; infer_instance

/-- The `while True` loop of `Game.__game_loop`, run on a finite list of
inputs: after each iteration the win condition is checked and on a win the
loop breaks, dropping all remaining inputs.  Returns the final state and
whether the session ended in the Won state. -/
def run_game_loop (g : Game) : List (Option Direction) → Game × Bool
  | [] => (g, false)
  | inp :: rest =>
    let g1 := game_loop_iter g inp
    if did_win g1 then (g1, true)
    else run_game_loop g1 rest

end MysteryMaze

namespace Legacy

/-- Embedding of class `Tile` of the earlier revision `src/maze.py`; the
carved flag is called `carved` there. -/
structure Tile where
  coords : MysteryMaze.Coords
  revealed : Bool
  carved : Bool
  visited : Bool
deriving DecidableEq

/-- The grid/dimension state of class `Mystery_Maze` of `src/maze.py`. -/
structure Maze where
  width : Int
  height : Int
  grid : MysteryMaze.Coords → Tile

/-- Point update of the legacy grid. -/
def updateGrid (g : MysteryMaze.Coords → Tile) (c : MysteryMaze.Coords)
    (f : Tile → Tile) : MysteryMaze.Coords → Tile :=
  fun e => if e = c then f (g c) else g e

/-- Embedding of `Game.make_move` of `src/maze.py`. -/
def make_move (m : Maze) (pos : MysteryMaze.Coords) (dir : MysteryMaze.Direction) :
    Maze × Bool × MysteryMaze.Coords :=
  let sc := MysteryMaze.dest_coords pos dir
  if sc.1 < 0 ∨ m.width ≤ sc.1 ∨ sc.2 < 0 ∨ m.height ≤ sc.2 then
    (m, false, pos)
  else
    let m1 := { m with grid := updateGrid m.grid sc (fun t => { t with revealed := true }) }
    let s := (m1.grid sc).carved
    (m1, s, if s then sc else pos)

end Legacy

namespace MysteryMaze

/-- The bound check guarding each direction in the neighbor search of
`__visit` (lines 127-137 of `src/mystery_maze.py`). -/
def direction_check (m : Mystery_Maze) (x y : Int) : Direction → Prop
  | Direction.NORTH => y > 1
  | Direction.SOUTH => y < m.height - 2
  | Direction.WEST => x > 1
  | Direction.EAST => x < m.width - 2

instance (m : Mystery_Maze) (x y : Int) (d : Direction) :
    Decidable (direction_check m x y d) := by
  cases d <;> simp only [direction_check] <;> infer_instance

/-- The key set of the Python grid dict: `range(width) x range(height)`. -/
def grid_keys (w h : Int) : Finset Coords :=
  Finset.Icc 0 (w - 1) ×ˢ Finset.Icc 0 (h - 1)

/-- A fresh all-wall 7 x 7 maze, used as a concrete input. -/
def M7 : Mystery_Maze := { width := 7, height := 7, grid := init_grid }

/-- A concrete 3 x 3 maze whose tiles are all unrevealed path tiles. -/
def all_path_maze : Mystery_Maze :=
  { width := 3, height := 3,
    grid := fun c => { coords := c, revealed := false, path := true, visited := false } }

/-- A concrete 3 x 3 maze whose tiles are all revealed path tiles. -/
def bright_maze : Mystery_Maze :=
  { width := 3, height := 3,
    grid := fun c => { coords := c, revealed := true, path := true, visited := false } }

/-- A concrete game state used as a witness input. -/
def bright_game : Game := { maze := bright_maze, player_position := (1, 1) }

/-- The legacy revision of `all_path_maze`. -/
def legacy_all_path : Legacy.Maze :=
  { width := 3, height := 3,
    grid := fun c => { coords := c, revealed := false, carved := true, visited := false } }

/-- Tile correspondence between the two revisions: the later revision
renames the `carved` flag to `path`. -/
def tile_matches (t : Legacy.Tile) (u : Maze_Tile) : Prop :=
  u.coords = t.coords ∧ u.revealed = t.revealed ∧ u.path = t.carved ∧ u.visited = t.visited

/-- Maze correspondence between the two revisions: same dimensions and
pointwise corresponding tiles. -/
def maze_matches (m0 : Legacy.Maze) (m : Mystery_Maze) : Prop :=
  m.width = m0.width ∧ m.height = m0.height ∧ ∀ c, tile_matches (m0.grid c) (m.grid c)

/-- The single mutation performed by an in-bounds step: set the revealed
flag of the tile at `c`. -/
def reveal_at (m : Mystery_Maze) (c : Coords) : Mystery_Maze :=
  { m with grid := updateGrid m.grid c (fun t => { t with revealed := true }) }

/-- The single mutation performed by an in-bounds legacy move. -/
def legacy_reveal_at (m0 : Legacy.Maze) (c : Coords) : Legacy.Maze :=
  { m0 with grid := Legacy.updateGrid m0.grid c (fun t => { t with revealed := true }) }

end MysteryMaze

namespace MysteryMaze

/-- Interior odd-odd lattice cell: both coordinates odd and within
`[1, w-2] x [1, h-2]`.  These are the cells on which the generator
recurses. -/
def oddCell (w h : Int) (c : Coords) : Prop :=
  1 ≤ c.1 ∧ c.1 ≤ w - 2 ∧ 1 ≤ c.2 ∧ c.2 ≤ h - 2 ∧ c.1 % 2 = 1 ∧ c.2 % 2 = 1

/-- Interior cell with exactly one odd coordinate: the hallway parity. -/
def mixedCell (w h : Int) (c : Coords) : Prop :=
  1 ≤ c.1 ∧ c.1 ≤ w - 2 ∧ 1 ≤ c.2 ∧ c.2 ≤ h - 2 ∧ c.1 % 2 + c.2 % 2 = 1

/-- The interior rectangle as a finite set. -/
def interiorFinset (w h : Int) : Finset Coords :=
  Finset.Icc 1 (w - 2) ×ˢ Finset.Icc 1 (h - 2)

/-- The interior odd-odd lattice as a finite set. -/
def oddFinset (w h : Int) : Finset Coords :=
  (interiorFinset w h).filter (fun c => c.1 % 2 = 1 ∧ c.2 % 2 = 1)

/-- The interior hallway-parity cells as a finite set. -/
def mixedFinset (w h : Int) : Finset Coords :=
  (interiorFinset w h).filter (fun c => c.1 % 2 + c.2 % 2 = 1)

/-- Two cells at distance exactly 2 along one axis. -/
def adjTwo (a b : Coords) : Prop :=
  (a.1 = b.1 ∧ (b.2 = a.2 + 2 ∨ a.2 = b.2 + 2)) ∨
  (a.2 = b.2 ∧ (b.1 = a.1 + 2 ∨ a.1 = b.1 + 2))

/-- Midpoint of two cells (used for the hallway between lattice
neighbors). -/
def mid (a b : Coords) : Coords := ((a.1 + b.1) / 2, (a.2 + b.2) / 2)

/-- The two lattice cells straddling a hallway-parity cell, in increasing
coordinate order along the even axis. -/
def endpointsOf (e : Coords) : Coords × Coords :=
  if e.2 % 2 = 0 then ((e.1, e.2 - 1), (e.1, e.2 + 1))
  else ((e.1 - 1, e.2), (e.1 + 1, e.2))

/-- The carved adjacency graph of the claim: two interior odd lattice
cells are adjacent when the hallway tile between them is carved. -/
def carvedAdj (m : Mystery_Maze) (a b : Coords) : Prop :=
  oddCell m.width m.height a ∧ oddCell m.width m.height b ∧ adjTwo a b ∧
  (m.grid (mid a b)).path = true

/-- A hallway tile both of whose endpoint lattice cells are visited. -/
def GoodHall (m : Mystery_Maze) (e : Coords) : Prop :=
  mixedCell m.width m.height e ∧
  oddCell m.width m.height (endpointsOf e).1 ∧
  oddCell m.width m.height (endpointsOf e).2 ∧
  (m.grid (endpointsOf e).1).visited = true ∧
  (m.grid (endpointsOf e).2).visited = true

/-- A dangling hallway tile: one endpoint is the cell `c` about to be
visited, the other endpoint is already visited. -/
def DangHall (m : Mystery_Maze) (c e : Coords) : Prop :=
  mixedCell m.width m.height e ∧
  oddCell m.width m.height (endpointsOf e).1 ∧
  oddCell m.width m.height (endpointsOf e).2 ∧
  (((endpointsOf e).1 = c ∧ (m.grid (endpointsOf e).2).visited = true) ∨
   ((endpointsOf e).2 = c ∧ (m.grid (endpointsOf e).1).visited = true))

/-- Normalized dimensions: odd and at least 3. -/
def DimsOK (m : Mystery_Maze) : Prop :=
  3 ≤ m.width ∧ 3 ≤ m.height ∧ m.width % 2 = 1 ∧ m.height % 2 = 1

/-- Every in-bounds lattice neighbor of `c` (as per the source's bound
checks) is visited. -/
def ClosedAt (m : Mystery_Maze) (c : Coords) : Prop :=
  ∀ d : Direction, direction_check m c.1 c.2 d →
    (m.grid (next_tile_coords c.1 c.2 d)).visited = true

/-- The generation invariant: visited cells are interior odd lattice
cells and are carved; every carved tile is either a visited lattice cell
or a hallway between two visited lattice cells; all visited cells are
connected in the carved adjacency graph. -/
structure Inv (m : Mystery_Maze) : Prop where
  vis_odd : ∀ c, (m.grid c).visited = true → oddCell m.width m.height c
  vis_path : ∀ c, (m.grid c).visited = true → (m.grid c).path = true
  path_char : ∀ c, (m.grid c).path = true → (m.grid c).visited = true ∨ GoodHall m c
  conn : ∀ a b, (m.grid a).visited = true → (m.grid b).visited = true →
    Relation.ReflTransGen (carvedAdj m) a b

/-- Precondition of the while loop of `__visit` at cell `c`. -/
structure LoopPre (m : Mystery_Maze) (c : Coords) : Prop where
  dims : DimsOK m
  codd : oddCell m.width m.height c
  cvis : (m.grid c).visited = true
  inv : Inv m

/-- Precondition of `__visit` at cell `c`: the invariant weakened by one
possibly dangling hallway into `c`, plus the fact that `c` is linked to
the visited region (unless nothing is visited yet). -/
structure VisitPre (m : Mystery_Maze) (c : Coords) : Prop where
  dims : DimsOK m
  codd : oddCell m.width m.height c
  cunvis : (m.grid c).visited = false
  vis_odd : ∀ e, (m.grid e).visited = true → oddCell m.width m.height e
  vis_path : ∀ e, (m.grid e).visited = true → (m.grid e).path = true
  path_char : ∀ e, (m.grid e).path = true →
    (m.grid e).visited = true ∨ GoodHall m e ∨ DangHall m c e
  conn : ∀ a b, (m.grid a).visited = true → (m.grid b).visited = true →
    Relation.ReflTransGen (carvedAdj m) a b
  anchor : (∀ e, (m.grid e).visited = false) ∨
    (∃ v, (m.grid v).visited = true ∧ carvedAdj m c v)

/-- Number of visited interior lattice cells. -/
def numVisited (m : Mystery_Maze) : Nat :=
  ((oddFinset m.width m.height).filter (fun c => (m.grid c).visited = true)).card

/-- Number of carved hallway-parity cells (the edges of the carved
graph). -/
def numHall (m : Mystery_Maze) : Nat :=
  ((mixedFinset m.width m.height).filter (fun c => (m.grid c).path = true)).card

/-- Number of unvisited interior lattice cells (the fuel measure). -/
def numUnvisited (m : Mystery_Maze) : Nat :=
  ((oddFinset m.width m.height).filter (fun c => (m.grid c).visited = false)).card

/-- Postcondition of the while loop of `__visit`. -/
structure LoopPost (m : Mystery_Maze) (c : Coords) (n : Mystery_Maze) : Prop where
  wEq : n.width = m.width
  hEq : n.height = m.height
  coordsEq : ∀ e, (n.grid e).coords = (m.grid e).coords
  revEq : ∀ e, (n.grid e).revealed = (m.grid e).revealed
  visMono : ∀ e, (m.grid e).visited = true → (n.grid e).visited = true
  pathMono : ∀ e, (m.grid e).path = true → (n.grid e).path = true
  newClosed : ∀ e, (n.grid e).visited = true → (m.grid e).visited = true ∨ ClosedAt n e
  selfClosed : ClosedAt n c
  inv : Inv n
  count : numVisited n + numHall m = numVisited m + numHall n

/-- Everything the claims need about a freshly generated maze. -/
structure GenResult (m : Mystery_Maze) : Prop where
  dims : DimsOK m
  coordsId : ∀ c, (m.grid c).coords = c
  oddCarved : ∀ c, oddCell m.width m.height c →
    (m.grid c).path = true ∧ (m.grid c).visited = true
  cardPathOdd :
    ((oddFinset m.width m.height).filter (fun c => (m.grid c).path = true)).card
      = (oddFinset m.width m.height).card
  cardVisitedOdd : numVisited m = (oddFinset m.width m.height).card
  cardHall : numHall m + 1 = (oddFinset m.width m.height).card
  conn : ∀ a b, oddCell m.width m.height a → oddCell m.width m.height b →
    Relation.ReflTransGen (carvedAdj m) a b
  boundaryWall : ∀ c, (c.1 = 0 ∨ c.1 = m.width - 1 ∨ c.2 = 0 ∨ c.2 = m.height - 1) →
    c ≠ exit_coords → c ≠ entry_coords_of m.width m.height → (m.grid c).path = false
  exitPath : (exit_tile m).path = true
  exitRev : (exit_tile m).revealed = true
  entryPath : (entry_tile m).path = true
  entryRev : (entry_tile m).revealed = true

/-- Postcondition of `__visit`. -/
structure VisitPost (m : Mystery_Maze) (c : Coords) (n : Mystery_Maze) : Prop where
  wEq : n.width = m.width
  hEq : n.height = m.height
  coordsEq : ∀ e, (n.grid e).coords = (m.grid e).coords
  revEq : ∀ e, (n.grid e).revealed = (m.grid e).revealed
  visMono : ∀ e, (m.grid e).visited = true → (n.grid e).visited = true
  pathMono : ∀ e, (m.grid e).path = true → (n.grid e).path = true
  cvis : (n.grid c).visited = true
  newClosed : ∀ e, (n.grid e).visited = true → (m.grid e).visited = true ∨ ClosedAt n e
  inv : Inv n
  count : numVisited n + numHall m = numVisited m + numHall n + 1

/-- A concrete generated 5 x 5 maze used as a witness input. -/
def M5 : Mystery_Maze := (mystery_maze_new 5 5 (fun _ => 0) 100).getD M7

end MysteryMaze

namespace MysteryMaze

theorem updateGrid_self (g : Coords → Maze_Tile) (c : Coords) (f : Maze_Tile → Maze_Tile) :
    updateGrid g c f c = f (g c) := by
  simp [updateGrid]

theorem updateGrid_other (g : Coords → Maze_Tile) (c : Coords) (f : Maze_Tile → Maze_Tile)
    (e : Coords) (h : e ≠ c) : updateGrid g c f e = g e := by
  simp [updateGrid, h]

/-- C2: when the one-cell destination is inside the grid, the step
operation reveals the destination tile unconditionally, succeeds exactly
when the destination is a path tile, moves exactly on success, and
mutates nothing else. -/
theorem take_step_in_bounds_spec (m : Mystery_Maze) (pos : Coords) (dir : Direction)
    (hpos : inBounds m pos) (hdc : inBounds m (dest_coords pos dir)) :
    ((take_step m pos dir).1.grid (dest_coords pos dir)).revealed = true ∧
    (take_step m pos dir).2.1 = (m.grid (dest_coords pos dir)).path ∧
    (take_step m pos dir).2.2 =
      (if (m.grid (dest_coords pos dir)).path = true then dest_coords pos dir else pos) ∧
    (take_step m pos dir).1.grid (dest_coords pos dir) =
      { m.grid (dest_coords pos dir) with revealed := true } ∧
    (∀ e, e ≠ dest_coords pos dir → (take_step m pos dir).1.grid e = m.grid e) ∧
    (take_step m pos dir).1.width = m.width ∧
    (take_step m pos dir).1.height = m.height := by
  obtain ⟨h1, h2, h3, h4⟩ := hdc
  have hg : ¬((dest_coords pos dir).1 < 0 ∨ m.width ≤ (dest_coords pos dir).1 ∨
      (dest_coords pos dir).2 < 0 ∨ m.height ≤ (dest_coords pos dir).2) := by omega
  simp only [take_step, hg, if_false]
  refine ⟨?_, ?_, ?_, ?_, fun e he => updateGrid_other _ _ _ _ he, ?_, ?_⟩ <;>
    simp [updateGrid_self]

theorem take_step_in_bounds_spec_witness :
    ((take_step all_path_maze (1, 1) Direction.NORTH).1.grid
      (dest_coords (1, 1) Direction.NORTH)).revealed = true :=
  (take_step_in_bounds_spec all_path_maze (1, 1) Direction.NORTH
    (by decide) (by decide)).1

/-- C3: when the one-cell destination is outside the grid, the step
operation fails, keeps the player in place, and mutates nothing: it
returns the maze completely unchanged. -/
theorem take_step_out_of_bounds_spec (m : Mystery_Maze) (pos : Coords) (dir : Direction)
    (hpos : inBounds m pos) (hdc : ¬ inBounds m (dest_coords pos dir)) :
    take_step m pos dir = (m, false, pos) := by
  unfold inBounds at hdc
  simp only [take_step, if_pos (show (dest_coords pos dir).1 < 0 ∨
    m.width ≤ (dest_coords pos dir).1 ∨ (dest_coords pos dir).2 < 0 ∨
    m.height ≤ (dest_coords pos dir).2 by omega)]

theorem take_step_out_of_bounds_spec_witness :
    take_step all_path_maze (0, 1) Direction.WEST = (all_path_maze, false, (0, 1)) :=
  take_step_out_of_bounds_spec all_path_maze (0, 1) Direction.WEST
    (by decide) (by decide)

/-- C6: dimensions are normalized (clamp below 3 to 3, bump even to odd),
hence always odd and at least 3; the grid has exactly width * height keys
and every tile starts as an unrevealed, unvisited wall. -/
theorem dimension_normalization (width height : Int) :
    normalize_dim width =
      (if width < 3 then 3 else if width % 2 = 0 then width + 1 else width) ∧
    normalize_dim height =
      (if height < 3 then 3 else if height % 2 = 0 then height + 1 else height) ∧
    3 ≤ normalize_dim width ∧ normalize_dim width % 2 = 1 ∧
    3 ≤ normalize_dim height ∧ normalize_dim height % 2 = 1 ∧
    (grid_keys (normalize_dim width) (normalize_dim height)).card
      = (normalize_dim width).toNat * (normalize_dim height).toNat ∧
    ∀ c, (init_grid c).path = false ∧ (init_grid c).revealed = false ∧
      (init_grid c).visited = false ∧ (init_grid c).coords = c := by
  have hcard : ∀ a b : Int, (grid_keys a b).card = a.toNat * b.toNat := by
    intro a b
    rw [grid_keys, Finset.card_product, Int.card_Icc, Int.card_Icc]
    congr 1 <;> omega
  refine ⟨?_, ?_, ?_, ?_, ?_, ?_, hcard _ _, fun c => ⟨rfl, rfl, rfl, rfl⟩⟩ <;>
    unfold normalize_dim <;> split_ifs <;> omega

/-- Membership in the `unvisited_neighbors` list is exactly the source's
bound check together with the two-away cell being unvisited. -/
theorem mem_unvisited_neighbors (m : Mystery_Maze) (x y : Int) (d : Direction) :
    d ∈ unvisited_neighbors m x y ↔
      (direction_check m x y d ∧ (m.grid (next_tile_coords x y d)).visited = false) := by
  cases d <;>
    simp only [unvisited_neighbors, direction_check, next_tile_coords, List.mem_append] <;>
    split_ifs <;> simp_all

/-- C9 (amended): a direction is eligible in the generator's neighbor
search exactly when its bound check holds and the cell two away is
unvisited; the NORTH/WEST checks are equivalent to `y - 2 >= 0` and
`x - 2 >= 0`, and the SOUTH/EAST checks are equivalent to
`y + 2 <= height - 1` and `x + 2 <= width - 1` (not `height - 3` /
`width - 3` as the spec wrote). -/
theorem neighbor_eligibility_amended (m : Mystery_Maze) (x y : Int) :
    (∀ d, d ∈ unvisited_neighbors m x y ↔
      (direction_check m x y d ∧ (m.grid (next_tile_coords x y d)).visited = false)) ∧
    ((y > 1) ↔ 0 ≤ y - 2) ∧ ((x > 1) ↔ 0 ≤ x - 2) ∧
    ((y < m.height - 2) ↔ y + 2 ≤ m.height - 1) ∧
    ((x < m.width - 2) ↔ x + 2 ≤ m.width - 1) :=
  ⟨fun d => mem_unvisited_neighbors m x y d,
    by omega, by omega, by omega, by omega⟩

/-- C9 counterexample: at height 7 and y = 3 the source's SOUTH bound
check `y < height - 2` holds (and SOUTH is indeed eligible), but the
spec's stated form `y + 2 <= height - 3` fails, so the two are not
equivalent. -/
theorem neighbor_bound_form_counterexample :
    Direction.SOUTH ∈ unvisited_neighbors M7 3 3 ∧
    ((3 : Int) < M7.height - 2) ∧
    ¬((3 : Int) + 2 ≤ M7.height - 3) ∧
    ¬(((3 : Int) < M7.height - 2) ↔ ((3 : Int) + 2 ≤ M7.height - 3)) := by
  refine ⟨by decide, by decide, by decide, ?_⟩
  intro h
  exact absurd (h.mp (by decide)) (by decide)

theorem legacy_updateGrid_self (g : Coords → Legacy.Tile) (c : Coords)
    (f : Legacy.Tile → Legacy.Tile) : Legacy.updateGrid g c f c = f (g c) := by
  simp [Legacy.updateGrid]

theorem legacy_updateGrid_other (g : Coords → Legacy.Tile) (c : Coords)
    (f : Legacy.Tile → Legacy.Tile) (e : Coords) (h : e ≠ c) :
    Legacy.updateGrid g c f e = g e := by
  simp [Legacy.updateGrid, h]

theorem take_step_of_in_bounds (m : Mystery_Maze) (pos : Coords) (dir : Direction)
    (hb : inBounds m (dest_coords pos dir)) :
    take_step m pos dir =
      (reveal_at m (dest_coords pos dir),
       (m.grid (dest_coords pos dir)).path,
       if (m.grid (dest_coords pos dir)).path = true then dest_coords pos dir else pos) := by
  obtain ⟨h1, h2, h3, h4⟩ := hb
  have hg : ¬((dest_coords pos dir).1 < 0 ∨ m.width ≤ (dest_coords pos dir).1 ∨
      (dest_coords pos dir).2 < 0 ∨ m.height ≤ (dest_coords pos dir).2) := by omega
  simp only [take_step, reveal_at, hg, if_false, updateGrid_self]

theorem take_step_of_out_of_bounds (m : Mystery_Maze) (pos : Coords) (dir : Direction)
    (hb : ¬ inBounds m (dest_coords pos dir)) :
    take_step m pos dir = (m, false, pos) := by
  unfold inBounds at hb
  simp only [take_step, if_pos (show (dest_coords pos dir).1 < 0 ∨
    m.width ≤ (dest_coords pos dir).1 ∨ (dest_coords pos dir).2 < 0 ∨
    m.height ≤ (dest_coords pos dir).2 by omega)]

theorem make_move_of_in_bounds (m0 : Legacy.Maze) (pos : Coords) (dir : Direction)
    (h1 : 0 ≤ (dest_coords pos dir).1) (h2 : (dest_coords pos dir).1 < m0.width)
    (h3 : 0 ≤ (dest_coords pos dir).2) (h4 : (dest_coords pos dir).2 < m0.height) :
    Legacy.make_move m0 pos dir =
      (legacy_reveal_at m0 (dest_coords pos dir),
       (m0.grid (dest_coords pos dir)).carved,
       if (m0.grid (dest_coords pos dir)).carved = true then dest_coords pos dir else pos) := by
  have hg : ¬((dest_coords pos dir).1 < 0 ∨ m0.width ≤ (dest_coords pos dir).1 ∨
      (dest_coords pos dir).2 < 0 ∨ m0.height ≤ (dest_coords pos dir).2) := by omega
  simp only [Legacy.make_move, legacy_reveal_at, hg, if_false, legacy_updateGrid_self]

theorem make_move_of_out_of_bounds (m0 : Legacy.Maze) (pos : Coords) (dir : Direction)
    (hg : (dest_coords pos dir).1 < 0 ∨ m0.width ≤ (dest_coords pos dir).1 ∨
      (dest_coords pos dir).2 < 0 ∨ m0.height ≤ (dest_coords pos dir).2) :
    Legacy.make_move m0 pos dir = (m0, false, pos) := by
  simp only [Legacy.make_move, if_pos hg]

/-- C10: `Game.make_move` of `src/maze.py` and `Game.__take_step` of
`src/mystery_maze.py` are equivalent: on corresponding grids (with the
`carved` flag read as `path`) they return the same success flag and new
position, and both perform the same single mutation, setting only the
in-bounds destination tile's revealed flag. -/
theorem step_refinement_equivalence (m0 : Legacy.Maze) (m : Mystery_Maze)
    (pos : Coords) (dir : Direction) (hm : maze_matches m0 m) :
    (take_step m pos dir).2.1 = (Legacy.make_move m0 pos dir).2.1 ∧
    (take_step m pos dir).2.2 = (Legacy.make_move m0 pos dir).2.2 ∧
    maze_matches (Legacy.make_move m0 pos dir).1 (take_step m pos dir).1 ∧
    (∀ e, e ≠ dest_coords pos dir →
      (take_step m pos dir).1.grid e = m.grid e ∧
      (Legacy.make_move m0 pos dir).1.grid e = m0.grid e) ∧
    (inBounds m (dest_coords pos dir) →
      (take_step m pos dir).1.grid (dest_coords pos dir) =
        { m.grid (dest_coords pos dir) with revealed := true } ∧
      (Legacy.make_move m0 pos dir).1.grid (dest_coords pos dir) =
        { m0.grid (dest_coords pos dir) with revealed := true }) ∧
    (¬ inBounds m (dest_coords pos dir) →
      (take_step m pos dir).1 = m ∧ (Legacy.make_move m0 pos dir).1 = m0) := by
  obtain ⟨hw, hh, ht⟩ := hm
  obtain ⟨hc, hr, hp, hv⟩ := ht (dest_coords pos dir)
  by_cases hb : inBounds m (dest_coords pos dir)
  · obtain ⟨h1, h2, h3, h4⟩ := hb
    rw [take_step_of_in_bounds m pos dir ⟨h1, h2, h3, h4⟩,
      make_move_of_in_bounds m0 pos dir h1 (by omega) h3 (by omega)]
    refine ⟨hp, by rw [hp], ⟨hw, hh, fun e => ?_⟩, fun e he => ?_, fun _ => ?_, fun hnb => ?_⟩
    · by_cases he : e = dest_coords pos dir
      · subst he
        simp only [reveal_at, legacy_reveal_at, updateGrid_self, legacy_updateGrid_self]
        exact ⟨hc, rfl, hp, hv⟩
      · simp only [reveal_at, legacy_reveal_at, updateGrid_other _ _ _ _ he,
          legacy_updateGrid_other _ _ _ _ he]
        exact ht e
    · exact ⟨by simp only [reveal_at]; exact updateGrid_other _ _ _ _ he,
        by simp only [legacy_reveal_at]; exact legacy_updateGrid_other _ _ _ _ he⟩
    · exact ⟨by simp only [reveal_at]; exact updateGrid_self _ _ _,
        by simp only [legacy_reveal_at]; exact legacy_updateGrid_self _ _ _⟩
    · exact absurd ⟨h1, h2, h3, h4⟩ hnb
  · have hb2 : ¬ inBounds m (dest_coords pos dir) := hb
    unfold inBounds at hb
    rw [take_step_of_out_of_bounds m pos dir hb2,
      make_move_of_out_of_bounds m0 pos dir (by omega)]
    exact ⟨rfl, rfl, ⟨hw, hh, ht⟩, fun e _ => ⟨rfl, rfl⟩,
      fun hb3 => absurd hb3 hb2, fun _ => ⟨rfl, rfl⟩⟩

theorem step_refinement_equivalence_witness :
    (take_step all_path_maze (1, 1) Direction.EAST).2.1 =
      (Legacy.make_move legacy_all_path (1, 1) Direction.EAST).2.1 :=
  (step_refinement_equivalence legacy_all_path all_path_maze (1, 1) Direction.EAST
    ⟨rfl, rfl, fun c => ⟨rfl, rfl, rfl, rfl⟩⟩).1

theorem take_step_revealed_mono (m : Mystery_Maze) (pos : Coords) (dir : Direction)
    (e : Coords) (h : (m.grid e).revealed = true) :
    ((take_step m pos dir).1.grid e).revealed = true := by
  by_cases hb : inBounds m (dest_coords pos dir)
  · rw [take_step_of_in_bounds m pos dir hb]
    by_cases he : e = dest_coords pos dir
    · subst he; simp [reveal_at, updateGrid_self]
    · simpa [reveal_at, updateGrid_other _ _ _ _ he] using h
  · rw [take_step_of_out_of_bounds m pos dir hb]
    exact h

theorem game_loop_iter_revealed_mono (g : Game) (inp : Option Direction)
    (e : Coords) (h : (g.maze.grid e).revealed = true) :
    ((game_loop_iter g inp).maze.grid e).revealed = true := by
  cases inp with
  | none => exact h
  | some dir => exact take_step_revealed_mono g.maze g.player_position dir e h

theorem run_loop_revealed_mono (g : Game) (L : List (Option Direction)) (e : Coords)
    (h : (g.maze.grid e).revealed = true) :
    (((run_game_loop g L).1).maze.grid e).revealed = true := by
  induction L generalizing g with
  | nil => exact h
  | cons inp rest ih =>
    rw [run_game_loop]
    split
    · exact game_loop_iter_revealed_mono g inp e h
    · exact ih _ (game_loop_iter_revealed_mono g inp e h)

/-- C7: reveal monotonicity: once a tile's revealed flag is true it stays
true across any sequence of game-loop iterations. -/
theorem reveal_monotonic (g : Game) (L : List (Option Direction)) (e : Coords)
    (h : (g.maze.grid e).revealed = true) :
    (((run_game_loop g L).1).maze.grid e).revealed = true :=
  run_loop_revealed_mono g L e h

theorem reveal_monotonic_witness :
    (((run_game_loop bright_game [some Direction.SOUTH]).1).maze.grid (0, 0)).revealed
      = true :=
  reveal_monotonic bright_game [some Direction.SOUTH] (0, 0) (by decide)

theorem take_step_coords_eq (m : Mystery_Maze) (pos : Coords) (dir : Direction)
    (e : Coords) : ((take_step m pos dir).1.grid e).coords = (m.grid e).coords := by
  by_cases hb : inBounds m (dest_coords pos dir)
  · rw [take_step_of_in_bounds m pos dir hb]
    by_cases he : e = dest_coords pos dir
    · subst he; simp [reveal_at, updateGrid_self]
    · simp [reveal_at, updateGrid_other _ _ _ _ he]
  · rw [take_step_of_out_of_bounds m pos dir hb]

theorem game_loop_iter_exit_coords (g : Game) (inp : Option Direction) :
    (exit_tile (game_loop_iter g inp).maze).coords = (exit_tile g.maze).coords := by
  cases inp with
  | none => rfl
  | some dir => exact take_step_coords_eq g.maze g.player_position dir exit_coords

/-- C8: the game loop transitions to the Won state (breaks out, dropping
any remaining inputs) exactly when the player's position equals the maze
exit's coordinates. -/
theorem win_detection_iff (g : Game) (L : List (Option Direction))
    (h : g.player_position ≠ (exit_tile g.maze).coords) :
    (run_game_loop g L).2 = true ↔
      (run_game_loop g L).1.player_position =
        (exit_tile ((run_game_loop g L).1.maze)).coords := by
  induction L generalizing g with
  | nil => simpa [run_game_loop] using h
  | cons inp rest ih =>
    rw [run_game_loop]
    by_cases hw : did_win (game_loop_iter g inp)
    · rw [if_pos hw]
      simpa using hw
    · have hne : (game_loop_iter g inp).player_position ≠
          (exit_tile (game_loop_iter g inp).maze).coords := hw
      rw [if_neg hw]
      exact ih (game_loop_iter g inp) hne

theorem win_detection_iff_witness :
    (run_game_loop bright_game []).2 = true ↔
      (run_game_loop bright_game []).1.player_position =
        (exit_tile ((run_game_loop bright_game []).1.maze)).coords :=
  win_detection_iff bright_game [] (by decide)

end MysteryMaze

namespace MysteryMaze

theorem carveMark_grid_self (m : Mystery_Maze) (c : Coords) :
    (carveMark m c).grid c = { m.grid c with path := true, visited := true } := by
  simp [carveMark, updateGrid]

theorem carveMark_grid_other (m : Mystery_Maze) (c e : Coords) (h : e ≠ c) :
    (carveMark m c).grid e = m.grid e := by
  simp [carveMark, updateGrid, h]

theorem carveHall_grid_self (m : Mystery_Maze) (c : Coords) :
    (carveHall m c).grid c = { m.grid c with path := true } := by
  simp [carveHall, updateGrid]

theorem carveHall_grid_other (m : Mystery_Maze) (c e : Coords) (h : e ≠ c) :
    (carveHall m c).grid e = m.grid e := by
  simp [carveHall, updateGrid, h]

theorem carveHall_visited (m : Mystery_Maze) (c e : Coords) :
    ((carveHall m c).grid e).visited = (m.grid e).visited := by
  by_cases h : e = c
  · subst h; rw [carveHall_grid_self]
  · rw [carveHall_grid_other m c e h]

theorem carveHall_coords (m : Mystery_Maze) (c e : Coords) :
    ((carveHall m c).grid e).coords = (m.grid e).coords := by
  by_cases h : e = c
  · subst h; rw [carveHall_grid_self]
  · rw [carveHall_grid_other m c e h]

theorem carveHall_revealed (m : Mystery_Maze) (c e : Coords) :
    ((carveHall m c).grid e).revealed = (m.grid e).revealed := by
  by_cases h : e = c
  · subst h; rw [carveHall_grid_self]
  · rw [carveHall_grid_other m c e h]

theorem carveMark_coords (m : Mystery_Maze) (c e : Coords) :
    ((carveMark m c).grid e).coords = (m.grid e).coords := by
  by_cases h : e = c
  · subst h; rw [carveMark_grid_self]
  · rw [carveMark_grid_other m c e h]

theorem carveMark_revealed (m : Mystery_Maze) (c e : Coords) :
    ((carveMark m c).grid e).revealed = (m.grid e).revealed := by
  by_cases h : e = c
  · subst h; rw [carveMark_grid_self]
  · rw [carveMark_grid_other m c e h]

theorem carveMark_visited_iff (m : Mystery_Maze) (c e : Coords) :
    ((carveMark m c).grid e).visited = true ↔
      ((m.grid e).visited = true ∨ e = c) := by
  by_cases h : e = c
  · subst h; rw [carveMark_grid_self]; simp
  · rw [carveMark_grid_other m c e h]; simp [h]

theorem carveMark_path_iff (m : Mystery_Maze) (c e : Coords) :
    ((carveMark m c).grid e).path = true ↔
      ((m.grid e).path = true ∨ e = c) := by
  by_cases h : e = c
  · subst h; rw [carveMark_grid_self]; simp
  · rw [carveMark_grid_other m c e h]; simp [h]

theorem carveHall_path_iff (m : Mystery_Maze) (c e : Coords) :
    ((carveHall m c).grid e).path = true ↔
      ((m.grid e).path = true ∨ e = c) := by
  by_cases h : e = c
  · subst h; rw [carveHall_grid_self]; simp
  · rw [carveHall_grid_other m c e h]; simp [h]

theorem mem_oddFinset (w h : Int) (c : Coords) :
    c ∈ oddFinset w h ↔ oddCell w h c := by
  unfold oddFinset interiorFinset oddCell
  simp only [Finset.mem_filter, Finset.mem_product, Finset.mem_Icc]
  tauto

theorem mem_mixedFinset (w h : Int) (c : Coords) :
    c ∈ mixedFinset w h ↔ mixedCell w h c := by
  unfold mixedFinset interiorFinset mixedCell
  simp only [Finset.mem_filter, Finset.mem_product, Finset.mem_Icc]
  tauto

theorem not_odd_and_mixed (w h : Int) (c : Coords) (h1 : oddCell w h c)
    (h2 : mixedCell w h c) : False := by
  unfold oddCell at h1
  unfold mixedCell at h2
  omega

theorem getD_mem_cons {α : Type} (a : α) (l : List α) (k : Nat) :
    (a :: l).getD k a ∈ a :: l := by
  rcases h : (a :: l)[k]? with _ | x
  · rw [List.getD_eq_getElem?_getD, h]
    exact List.mem_cons_self a l
  · rw [List.getD_eq_getElem?_getD, h]
    exact List.getElem?_mem h

theorem unvisited_neighbors_nil (m : Mystery_Maze) (x y : Int) :
    unvisited_neighbors m x y = [] ↔
      (∀ d, direction_check m x y d →
        (m.grid (next_tile_coords x y d)).visited = true) := by
  constructor
  · intro h d hd
    cases hb : (m.grid (next_tile_coords x y d)).visited
    · have hm : d ∈ unvisited_neighbors m x y :=
        (mem_unvisited_neighbors m x y d).mpr ⟨hd, hb⟩
      rw [h] at hm
      exact absurd hm (List.not_mem_nil d)
    · rfl
  · intro h
    rcases hns : unvisited_neighbors m x y with _ | ⟨d, ds⟩
    · rfl
    · have hm : d ∈ unvisited_neighbors m x y := by
        rw [hns]; exact List.mem_cons_self d ds
      have hw := (mem_unvisited_neighbors m x y d).mp hm
      rw [h d hw.1] at hw
      exact absurd hw.2 (by simp)

theorem closedAt_mono (m n : Mystery_Maze) (hw : n.width = m.width)
    (hh : n.height = m.height)
    (hv : ∀ e, (m.grid e).visited = true → (n.grid e).visited = true)
    {c : Coords} (h : ClosedAt m c) : ClosedAt n c := by
  intro d hd
  apply hv
  apply h
  cases d <;> simp only [direction_check, hw, hh] at hd ⊢ <;> exact hd

theorem carvedAdj_mono (m n : Mystery_Maze) (hw : n.width = m.width)
    (hh : n.height = m.height)
    (hp : ∀ e, (m.grid e).path = true → (n.grid e).path = true)
    {a b : Coords} (h : carvedAdj m a b) : carvedAdj n a b := by
  obtain ⟨h1, h2, h3, h4⟩ := h
  exact ⟨by rw [hw, hh]; exact h1, by rw [hw, hh]; exact h2, h3, hp _ h4⟩

theorem reach_mono (m n : Mystery_Maze) (hw : n.width = m.width)
    (hh : n.height = m.height)
    (hp : ∀ e, (m.grid e).path = true → (n.grid e).path = true)
    {a b : Coords} (h : Relation.ReflTransGen (carvedAdj m) a b) :
    Relation.ReflTransGen (carvedAdj n) a b :=
  Relation.ReflTransGen.mono (fun _ _ hab => carvedAdj_mono m n hw hh hp hab) h

theorem carvedAdj_symm (m : Mystery_Maze) {a b : Coords} (h : carvedAdj m a b) :
    carvedAdj m b a := by
  obtain ⟨h1, h2, h3, h4⟩ := h
  refine ⟨h2, h1, ?_, ?_⟩
  · unfold adjTwo at h3 ⊢
    omega
  · have hm : mid b a = mid a b := by
      unfold mid
      rw [Int.add_comm b.1, Int.add_comm b.2]
    rw [hm]
    exact h4

theorem endpointsOf_even {a b : Int} (h : b % 2 = 0) :
    endpointsOf (a, b) = ((a, b - 1), (a, b + 1)) := by
  unfold endpointsOf
  rw [if_pos h]

theorem endpointsOf_odd {a b : Int} (h : ¬ b % 2 = 0) :
    endpointsOf (a, b) = ((a - 1, b), (a + 1, b)) := by
  unfold endpointsOf
  rw [if_neg h]

end MysteryMaze

namespace MysteryMaze

theorem oddCell_mk (w h x y : Int) :
    oddCell w h (x, y) ↔
      (1 ≤ x ∧ x ≤ w - 2 ∧ 1 ≤ y ∧ y ≤ h - 2 ∧ x % 2 = 1 ∧ y % 2 = 1) :=
  Iff.rfl

theorem mixedCell_mk (w h x y : Int) :
    mixedCell w h (x, y) ↔
      (1 ≤ x ∧ x ≤ w - 2 ∧ 1 ≤ y ∧ y ≤ h - 2 ∧ x % 2 + y % 2 = 1) :=
  Iff.rfl

theorem adjTwo_mk (x y a b : Int) :
    adjTwo (x, y) (a, b) ↔
      ((x = a ∧ (b = y + 2 ∨ y = b + 2)) ∨ (y = b ∧ (a = x + 2 ∨ x = a + 2))) :=
  Iff.rfl

theorem mid_mk (x y a b : Int) : mid (x, y) (a, b) = ((x + a) / 2, (y + b) / 2) :=
  rfl

/-- All the parity and bound geometry of one eligible generator step. -/
theorem dir_facts {m : Mystery_Maze} {x y : Int} (hdims : DimsOK m)
    (hodd : oddCell m.width m.height (x, y)) (d : Direction)
    (hchk : direction_check m x y d) :
    oddCell m.width m.height (next_tile_coords x y d) ∧
    mixedCell m.width m.height (hallway_coords x y d) ∧
    adjTwo (x, y) (next_tile_coords x y d) ∧
    mid (x, y) (next_tile_coords x y d) = hallway_coords x y d ∧
    mid (next_tile_coords x y d) (x, y) = hallway_coords x y d ∧
    adjTwo (next_tile_coords x y d) (x, y) ∧
    (endpointsOf (hallway_coords x y d) = (next_tile_coords x y d, (x, y)) ∨
     endpointsOf (hallway_coords x y d) = ((x, y), next_tile_coords x y d)) := by
  obtain ⟨hw3, hh3, hwodd, hhodd⟩ := hdims
  rw [oddCell_mk] at hodd
  obtain ⟨hx1, hx2, hy1, hy2, hpx, hpy⟩ := hodd
  cases d
  case NORTH =>
    simp only [direction_check] at hchk
    simp only [next_tile_coords, hallway_coords]
    refine ⟨?_, ?_, ?_, ?_, ?_, ?_, Or.inl ?_⟩
    · rw [oddCell_mk]; omega
    · rw [mixedCell_mk]; omega
    · rw [adjTwo_mk]; omega
    · rw [mid_mk, Prod.mk.injEq]; omega
    · rw [mid_mk, Prod.mk.injEq]; omega
    · rw [adjTwo_mk]; omega
    · rw [endpointsOf_even (by omega), Prod.mk.injEq, Prod.mk.injEq, Prod.mk.injEq]
      omega
  case SOUTH =>
    simp only [direction_check] at hchk
    simp only [next_tile_coords, hallway_coords]
    refine ⟨?_, ?_, ?_, ?_, ?_, ?_, Or.inr ?_⟩
    · rw [oddCell_mk]; omega
    · rw [mixedCell_mk]; omega
    · rw [adjTwo_mk]; omega
    · rw [mid_mk, Prod.mk.injEq]; omega
    · rw [mid_mk, Prod.mk.injEq]; omega
    · rw [adjTwo_mk]; omega
    · rw [endpointsOf_even (by omega), Prod.mk.injEq, Prod.mk.injEq, Prod.mk.injEq]
      omega
  case WEST =>
    simp only [direction_check] at hchk
    simp only [next_tile_coords, hallway_coords]
    refine ⟨?_, ?_, ?_, ?_, ?_, ?_, Or.inl ?_⟩
    · rw [oddCell_mk]; omega
    · rw [mixedCell_mk]; omega
    · rw [adjTwo_mk]; omega
    · rw [mid_mk, Prod.mk.injEq]; omega
    · rw [mid_mk, Prod.mk.injEq]; omega
    · rw [adjTwo_mk]; omega
    · rw [endpointsOf_odd (by omega), Prod.mk.injEq, Prod.mk.injEq, Prod.mk.injEq]
      omega
  case EAST =>
    simp only [direction_check] at hchk
    simp only [next_tile_coords, hallway_coords]
    refine ⟨?_, ?_, ?_, ?_, ?_, ?_, Or.inr ?_⟩
    · rw [oddCell_mk]; omega
    · rw [mixedCell_mk]; omega
    · rw [adjTwo_mk]; omega
    · rw [mid_mk, Prod.mk.injEq]; omega
    · rw [mid_mk, Prod.mk.injEq]; omega
    · rw [adjTwo_mk]; omega
    · rw [endpointsOf_odd (by omega), Prod.mk.injEq, Prod.mk.injEq, Prod.mk.injEq]
      omega

theorem filter_card_flip (S : Finset Coords) (p q : Coords → Prop)
    [DecidablePred p] [DecidablePred q] (c : Coords) (hc : c ∈ S)
    (hpc : ¬ p c) (hqc : q c) (hagree : ∀ e, e ≠ c → (p e ↔ q e)) :
    (S.filter q).card = (S.filter p).card + 1 := by
  have hset : S.filter q = insert c (S.filter p) := by
    ext e
    by_cases he : e = c
    · subst he
      simp [hc, hqc]
    · simp only [Finset.mem_filter, Finset.mem_insert, he, false_or]
      rw [hagree e he]
  rw [hset, Finset.card_insert_of_not_mem]
  simp [Finset.mem_filter, hpc]

theorem filter_card_drop (S : Finset Coords) (p q : Coords → Prop)
    [DecidablePred p] [DecidablePred q] (c : Coords) (hc : c ∈ S)
    (hpc : p c) (hqc : ¬ q c) (hagree : ∀ e, e ≠ c → (p e ↔ q e)) :
    (S.filter q).card + 1 = (S.filter p).card := by
  have hset : S.filter p = insert c (S.filter q) := by
    ext e
    by_cases he : e = c
    · subst he
      simp [hc, hpc]
    · simp only [Finset.mem_filter, Finset.mem_insert, he, false_or]
      rw [hagree e he]
  rw [hset, Finset.card_insert_of_not_mem]
  simp [Finset.mem_filter, hqc]

theorem filter_card_same (S : Finset Coords) (p q : Coords → Prop)
    [DecidablePred p] [DecidablePred q] (hagree : ∀ e ∈ S, (p e ↔ q e)) :
    (S.filter q).card = (S.filter p).card := by
  have hset : S.filter q = S.filter p := by
    ext e
    simp only [Finset.mem_filter]
    constructor
    · rintro ⟨h1, h2⟩
      exact ⟨h1, (hagree e h1).mpr h2⟩
    · rintro ⟨h1, h2⟩
      exact ⟨h1, (hagree e h1).mp h2⟩
  rw [hset]

theorem numVisited_carveMark (m : Mystery_Maze) (c : Coords)
    (hodd : oddCell m.width m.height c) (hunvis : (m.grid c).visited = false) :
    numVisited (carveMark m c) = numVisited m + 1 := by
  unfold numVisited
  exact filter_card_flip (oddFinset m.width m.height) _ _ c
    ((mem_oddFinset _ _ _).mpr hodd) (by simp [hunvis])
    (by rw [carveMark_grid_self])
    (fun e he => by rw [carveMark_grid_other m c e he])

theorem numHall_carveMark (m : Mystery_Maze) (c : Coords)
    (hodd : oddCell m.width m.height c) :
    numHall (carveMark m c) = numHall m := by
  unfold numHall
  refine filter_card_same (mixedFinset m.width m.height) _ _ (fun e he => ?_)
  have hne : e ≠ c := by
    intro h
    subst h
    exact not_odd_and_mixed _ _ _ hodd ((mem_mixedFinset _ _ _).mp he)
  rw [carveMark_grid_other m c e hne]

theorem numVisited_carveHall (m : Mystery_Maze) (c : Coords) :
    numVisited (carveHall m c) = numVisited m := by
  unfold numVisited
  exact filter_card_same (oddFinset m.width m.height) _ _
    (fun e _ => by rw [carveHall_visited])

theorem numHall_carveHall (m : Mystery_Maze) (c : Coords)
    (hmixed : mixedCell m.width m.height c) (hnp : (m.grid c).path = false) :
    numHall (carveHall m c) = numHall m + 1 := by
  unfold numHall
  exact filter_card_flip (mixedFinset m.width m.height) _ _ c
    ((mem_mixedFinset _ _ _).mpr hmixed) (by simp [hnp])
    (by rw [carveHall_grid_self])
    (fun e he => by rw [carveHall_grid_other m c e he])

theorem numUnvisited_carveMark (m : Mystery_Maze) (c : Coords)
    (hodd : oddCell m.width m.height c) (hunvis : (m.grid c).visited = false) :
    numUnvisited (carveMark m c) + 1 = numUnvisited m := by
  unfold numUnvisited
  exact filter_card_drop (oddFinset m.width m.height) _ _ c
    ((mem_oddFinset _ _ _).mpr hodd) hunvis
    (by rw [carveMark_grid_self]; simp)
    (fun e he => by rw [carveMark_grid_other m c e he])

theorem numUnvisited_carveHall (m : Mystery_Maze) (c : Coords) :
    numUnvisited (carveHall m c) = numUnvisited m := by
  unfold numUnvisited
  exact filter_card_same (oddFinset m.width m.height) _ _
    (fun e _ => by rw [carveHall_visited])

theorem numUnvisited_mono (m n : Mystery_Maze) (hw : n.width = m.width)
    (hh : n.height = m.height)
    (hv : ∀ e, (m.grid e).visited = true → (n.grid e).visited = true) :
    numUnvisited n ≤ numUnvisited m := by
  unfold numUnvisited
  rw [hw, hh]
  apply Finset.card_le_card
  intro e he
  rw [Finset.mem_filter] at he ⊢
  refine ⟨he.1, ?_⟩
  cases hb : (m.grid e).visited
  · rfl
  · rw [hv e hb] at he
    exact absurd he.2 (by simp)

end MysteryMaze

namespace MysteryMaze

/-- Marking an unvisited cell under `VisitPre` establishes the loop
precondition: the dangling hallway (if any) becomes a genuine hallway and
its edge links the new cell to the visited component. -/
theorem mark_pre {m : Mystery_Maze} {c : Coords} (h : VisitPre m c) :
    LoopPre (carveMark m c) c := by
  have hadj : ∀ u v, carvedAdj m u v → carvedAdj (carveMark m c) u v :=
    fun u v huv =>
      carvedAdj_mono m (carveMark m c) rfl rfl
        (fun e hp => (carveMark_path_iff m c e).mpr (Or.inl hp)) huv
  have hreach : ∀ u v, Relation.ReflTransGen (carvedAdj m) u v →
      Relation.ReflTransGen (carvedAdj (carveMark m c)) u v :=
    fun u v huv =>
      reach_mono m (carveMark m c) rfl rfl
        (fun e hp => (carveMark_path_iff m c e).mpr (Or.inl hp)) huv
  refine ⟨h.dims, h.codd, by rw [carveMark_grid_self], ?_, ?_, ?_, ?_⟩
  · intro e he
    rcases (carveMark_visited_iff m c e).mp he with hv | hv
    · exact h.vis_odd e hv
    · subst hv
      exact h.codd
  · intro e he
    rcases (carveMark_visited_iff m c e).mp he with hv | hv
    · exact (carveMark_path_iff m c e).mpr (Or.inl (h.vis_path e hv))
    · exact (carveMark_path_iff m c e).mpr (Or.inr hv)
  · intro e he
    rcases (carveMark_path_iff m c e).mp he with hp | hp
    · rcases h.path_char e hp with hv | hgood | hdang
      · exact Or.inl ((carveMark_visited_iff m c e).mpr (Or.inl hv))
      · obtain ⟨q1, q2, q3, q4, q5⟩ := hgood
        exact Or.inr ⟨q1, q2, q3, (carveMark_visited_iff m c _).mpr (Or.inl q4),
          (carveMark_visited_iff m c _).mpr (Or.inl q5)⟩
      · obtain ⟨q1, q2, q3, q4⟩ := hdang
        rcases q4 with ⟨qe, qv⟩ | ⟨qe, qv⟩
        · exact Or.inr ⟨q1, q2, q3, (carveMark_visited_iff m c _).mpr (Or.inr qe),
            (carveMark_visited_iff m c _).mpr (Or.inl qv)⟩
        · exact Or.inr ⟨q1, q2, q3, (carveMark_visited_iff m c _).mpr (Or.inl qv),
            (carveMark_visited_iff m c _).mpr (Or.inr qe)⟩
    · rw [hp]
      exact Or.inl ((carveMark_visited_iff m c c).mpr (Or.inr rfl))
  · intro a b ha hb
    rcases (carveMark_visited_iff m c a).mp ha with hva | hva <;>
      rcases (carveMark_visited_iff m c b).mp hb with hvb | hvb
    · exact hreach a b (h.conn a b hva hvb)
    · rw [hvb]
      rcases h.anchor with hall | ⟨v, hv, hcv⟩
      · rw [hall a] at hva
        exact absurd hva (by simp)
      · exact Relation.ReflTransGen.tail (hreach a v (h.conn a v hva hv))
          (hadj v c (carvedAdj_symm m hcv))
    · rw [hva]
      rcases h.anchor with hall | ⟨v, hv, hcv⟩
      · rw [hall b] at hvb
        exact absurd hvb (by simp)
      · exact Relation.ReflTransGen.head (hadj c v hcv) (hreach v b (h.conn v b hv hvb))
    · rw [hva, hvb]

/-- Carving the hallway toward an eligible unvisited neighbor establishes
the visit precondition at that neighbor, and bumps the hallway count by
exactly one. -/
theorem hall_pre {m : Mystery_Maze} {c : Coords} (h : LoopPre m c) (d : Direction)
    (hchk : direction_check m c.1 c.2 d)
    (hnv : (m.grid (next_tile_coords c.1 c.2 d)).visited = false) :
    VisitPre (carveHall m (hallway_coords c.1 c.2 d)) (next_tile_coords c.1 c.2 d) ∧
    numHall (carveHall m (hallway_coords c.1 c.2 d)) = numHall m + 1 ∧
    numVisited (carveHall m (hallway_coords c.1 c.2 d)) = numVisited m ∧
    numUnvisited (carveHall m (hallway_coords c.1 c.2 d)) = numUnvisited m := by
  have hxy : oddCell m.width m.height (c.1, c.2) := h.codd
  obtain ⟨hnodd, hmix, hadj, hmid, hmid2, hadj2, hep⟩ := dir_facts h.dims hxy d hchk
  have hnp : (m.grid (hallway_coords c.1 c.2 d)).path = false := by
    cases hb : (m.grid (hallway_coords c.1 c.2 d)).path
    · rfl
    · rcases h.inv.path_char _ hb with hv | hgood
      · exact absurd (h.inv.vis_odd _ hv) (fun ho => not_odd_and_mixed _ _ _ ho hmix)
      · obtain ⟨q1, q2, q3, q4, q5⟩ := hgood
        rcases hep with he | he
        · rw [he] at q4
          rw [q4] at hnv
          exact absurd hnv (by simp)
        · rw [he] at q5
          rw [q5] at hnv
          exact absurd hnv (by simp)
  refine ⟨?_, numHall_carveHall m _ hmix hnp, numVisited_carveHall m _,
    numUnvisited_carveHall m _⟩
  refine ⟨h.dims, hnodd, by rw [carveHall_visited]; exact hnv, ?_, ?_, ?_, ?_, ?_⟩
  · intro e he
    rw [carveHall_visited] at he
    exact h.inv.vis_odd e he
  · intro e he
    rw [carveHall_visited] at he
    exact (carveHall_path_iff m _ e).mpr (Or.inl (h.inv.vis_path e he))
  · intro e he
    rcases (carveHall_path_iff m _ e).mp he with hp | hp
    · rcases h.inv.path_char e hp with hv | hgood
      · exact Or.inl (by rw [carveHall_visited]; exact hv)
      · obtain ⟨q1, q2, q3, q4, q5⟩ := hgood
        exact Or.inr (Or.inl ⟨q1, q2, q3, by rw [carveHall_visited]; exact q4,
          by rw [carveHall_visited]; exact q5⟩)
    · subst hp
      refine Or.inr (Or.inr ?_)
      rcases hep with he2 | he2
      · refine ⟨hmix, ?_, ?_, Or.inl ⟨?_, ?_⟩⟩
        · rw [he2]; exact hnodd
        · rw [he2]; exact hxy
        · rw [he2]
        · rw [he2, carveHall_visited]; exact h.cvis
      · refine ⟨hmix, ?_, ?_, Or.inr ⟨?_, ?_⟩⟩
        · rw [he2]; exact hxy
        · rw [he2]; exact hnodd
        · rw [he2]
        · rw [he2, carveHall_visited]; exact h.cvis
  · intro a b ha hb
    rw [carveHall_visited] at ha hb
    exact reach_mono m (carveHall m (hallway_coords c.1 c.2 d)) rfl rfl
      (fun e hp => (carveHall_path_iff m _ e).mpr (Or.inl hp))
      (h.inv.conn a b ha hb)
  · refine Or.inr ⟨c, by rw [carveHall_visited]; exact h.cvis, ?_⟩
    refine ⟨hnodd, h.codd, hadj2, ?_⟩
    rw [hmid2]
    exact (carveHall_path_iff m _ _).mpr (Or.inr rfl)

end MysteryMaze

namespace MysteryMaze

theorem visitLoop_zero (rng : Nat → Nat) (i : Nat) (m : Mystery_Maze) (c : Coords) :
    visitLoop 0 rng i m c = none := rfl

theorem visitLoop_succ (fuel : Nat) (rng : Nat → Nat) (i : Nat) (m : Mystery_Maze)
    (c : Coords) :
    visitLoop (fuel + 1) rng i m c =
      match unvisited_neighbors m c.1 c.2 with
      | [] => some (m, i)
      | d :: ds =>
        match visitLoop fuel rng (i + 1)
            (carveMark
              (carveHall m
                (hallway_coords c.1 c.2 ((d :: ds).getD (rng i % (d :: ds).length) d)))
              (next_tile_coords c.1 c.2 ((d :: ds).getD (rng i % (d :: ds).length) d)))
            (next_tile_coords c.1 c.2 ((d :: ds).getD (rng i % (d :: ds).length) d)) with
        | none => none
        | some mi => visitLoop fuel rng mi.2 mi.1 c := rfl

theorem visitLoop_succ_nil (fuel : Nat) (rng : Nat → Nat) (i : Nat) (m : Mystery_Maze)
    (c : Coords) (h : unvisited_neighbors m c.1 c.2 = []) :
    visitLoop (fuel + 1) rng i m c = some (m, i) := by
  rw [visitLoop_succ, h]

theorem visitLoop_succ_cons (fuel : Nat) (rng : Nat → Nat) (i : Nat) (m : Mystery_Maze)
    (c : Coords) (d : Direction) (ds : List Direction)
    (h : unvisited_neighbors m c.1 c.2 = d :: ds) :
    visitLoop (fuel + 1) rng i m c =
      match visitLoop fuel rng (i + 1)
          (carveMark
            (carveHall m
              (hallway_coords c.1 c.2 ((d :: ds).getD (rng i % (d :: ds).length) d)))
            (next_tile_coords c.1 c.2 ((d :: ds).getD (rng i % (d :: ds).length) d)))
          (next_tile_coords c.1 c.2 ((d :: ds).getD (rng i % (d :: ds).length) d)) with
      | none => none
      | some mi => visitLoop fuel rng mi.2 mi.1 c := by
  rw [visitLoop_succ, h]

/-- Main correctness of the generator loop: if the loop completes, the
invariant holds, the state only grows, every newly visited cell has all
its in-bounds lattice neighbors visited, the current cell is closed, and
the visited/hallway counts grow in lockstep. -/
theorem visitLoop_spec : ∀ (fuel : Nat) (rng : Nat → Nat) (i : Nat) (m : Mystery_Maze)
    (c : Coords) (n : Mystery_Maze) (j : Nat),
    visitLoop fuel rng i m c = some (n, j) → LoopPre m c → LoopPost m c n := by
  intro fuel
  induction fuel with
  | zero =>
    intro rng i m c n j hrun _
    rw [visitLoop_zero] at hrun
    exact absurd hrun (by simp)
  | succ fuel ih =>
    intro rng i m c n j hrun hpre
    rcases hns : unvisited_neighbors m c.1 c.2 with _ | ⟨d, ds⟩
    · rw [visitLoop_succ_nil fuel rng i m c hns] at hrun
      have hmn : m = n ∧ i = j := by
        rw [Option.some.injEq, Prod.mk.injEq] at hrun
        exact hrun
      obtain ⟨hmn, _⟩ := hmn
      subst hmn
      have hclosed : ClosedAt m c := fun dd hdd =>
        (unvisited_neighbors_nil m c.1 c.2).mp hns dd hdd
      exact ⟨rfl, rfl, fun e => rfl, fun e => rfl, fun e hv => hv, fun e hp => hp,
        fun e hv => Or.inl hv, hclosed, hpre.inv, rfl⟩
    · rw [visitLoop_succ_cons fuel rng i m c d ds hns] at hrun
      generalize hgd : (d :: ds).getD (rng i % (d :: ds).length) d = dd at hrun
      have hmem : dd ∈ unvisited_neighbors m c.1 c.2 := by
        rw [hns, ← hgd]
        exact getD_mem_cons d ds _
      obtain ⟨hchk, hnv⟩ := (mem_unvisited_neighbors m c.1 c.2 dd).mp hmem
      obtain ⟨hvp, hH, hV, hU⟩ := hall_pre hpre dd hchk hnv
      have hlp1 : LoopPre
          (carveMark (carveHall m (hallway_coords c.1 c.2 dd))
            (next_tile_coords c.1 c.2 dd))
          (next_tile_coords c.1 c.2 dd) := mark_pre hvp
      rcases hinner : visitLoop fuel rng (i + 1)
          (carveMark (carveHall m (hallway_coords c.1 c.2 dd))
            (next_tile_coords c.1 c.2 dd))
          (next_tile_coords c.1 c.2 dd) with _ | mi
      · rw [hinner] at hrun
        exact absurd hrun (by simp)
      · rw [hinner] at hrun
        have post1 := ih rng (i + 1) _ (next_tile_coords c.1 c.2 dd) mi.1 mi.2
          hinner hlp1
        have hrun2 : visitLoop fuel rng mi.2 mi.1 c = some (n, j) := hrun
        have hcvis1 : ((carveMark (carveHall m (hallway_coords c.1 c.2 dd))
            (next_tile_coords c.1 c.2 dd)).grid c).visited = true :=
          (carveMark_visited_iff _ _ c).mpr
            (Or.inl (by rw [carveHall_visited]; exact hpre.cvis))
        have hlp2 : LoopPre mi.1 c := by
          obtain ⟨d1, d2, d3, d4⟩ := hpre.dims
          refine ⟨⟨?_, ?_, ?_, ?_⟩, ?_, ?_, post1.inv⟩
          · rw [post1.wEq]; exact d1
          · rw [post1.hEq]; exact d2
          · rw [post1.wEq]; exact d3
          · rw [post1.hEq]; exact d4
          · have hcodd : oddCell m.width m.height c := hpre.codd
            rw [post1.wEq, post1.hEq]
            exact hcodd
          · exact post1.visMono c hcvis1
        have post2 := ih rng mi.2 mi.1 c n j hrun2 hlp2
        have hvisY : ∀ e, (m.grid e).visited = true →
            ((carveMark (carveHall m (hallway_coords c.1 c.2 dd))
              (next_tile_coords c.1 c.2 dd)).grid e).visited = true := fun e hv =>
          (carveMark_visited_iff _ _ e).mpr (Or.inl (by rw [carveHall_visited]; exact hv))
        have hpathY : ∀ e, (m.grid e).path = true →
            ((carveMark (carveHall m (hallway_coords c.1 c.2 dd))
              (next_tile_coords c.1 c.2 dd)).grid e).path = true := fun e hp =>
          (carveMark_path_iff _ _ e).mpr
            (Or.inl ((carveHall_path_iff m _ e).mpr (Or.inl hp)))
        refine ⟨post2.wEq.trans post1.wEq, post2.hEq.trans post1.hEq, ?_, ?_, ?_, ?_,
          ?_, post2.selfClosed, post2.inv, ?_⟩
        · intro e
          exact (post2.coordsEq e).trans ((post1.coordsEq e).trans
            ((carveMark_coords _ _ e).trans (carveHall_coords m _ e)))
        · intro e
          exact (post2.revEq e).trans ((post1.revEq e).trans
            ((carveMark_revealed _ _ e).trans (carveHall_revealed m _ e)))
        · intro e hv
          exact post2.visMono e (post1.visMono e (hvisY e hv))
        · intro e hp
          exact post2.pathMono e (post1.pathMono e (hpathY e hp))
        · intro e hv
          rcases post2.newClosed e hv with h2 | h2
          · rcases post1.newClosed e h2 with h1 | h1
            · rcases (carveMark_visited_iff _ _ e).mp h1 with h0 | h0
              · rw [carveHall_visited] at h0
                exact Or.inl h0
              · refine Or.inr (closedAt_mono mi.1 n post2.wEq post2.hEq post2.visMono ?_)
                rw [h0]
                exact post1.selfClosed
            · exact Or.inr (closedAt_mono mi.1 n post2.wEq post2.hEq post2.visMono h1)
          · exact Or.inr h2
        · have e1 := post2.count
          have e2 := post1.count
          have e3 : numVisited (carveMark (carveHall m (hallway_coords c.1 c.2 dd))
              (next_tile_coords c.1 c.2 dd))
              = numVisited (carveHall m (hallway_coords c.1 c.2 dd)) + 1 :=
            numVisited_carveMark _ _ hvp.codd hvp.cunvis
          have e4 : numHall (carveMark (carveHall m (hallway_coords c.1 c.2 dd))
              (next_tile_coords c.1 c.2 dd))
              = numHall (carveHall m (hallway_coords c.1 c.2 dd)) :=
            numHall_carveMark _ _ hvp.codd
          omega

end MysteryMaze

namespace MysteryMaze

theorem visit_zero (rng : Nat → Nat) (i : Nat) (m : Mystery_Maze) (c : Coords) :
    visit 0 rng i m c = none := rfl

theorem visit_succ (fuel : Nat) (rng : Nat → Nat) (i : Nat) (m : Mystery_Maze)
    (c : Coords) :
    visit (fuel + 1) rng i m c = visitLoop fuel rng i (carveMark m c) c := rfl

/-- Correctness of `__visit`: marks its cell, preserves the invariant,
closes every newly visited cell, and visits exactly one more cell than it
carves hallways. -/
theorem visit_spec (fuel : Nat) (rng : Nat → Nat) (i : Nat) (m : Mystery_Maze)
    (c : Coords) (n : Mystery_Maze) (j : Nat)
    (hrun : visit fuel rng i m c = some (n, j)) (hpre : VisitPre m c) :
    VisitPost m c n := by
  cases fuel with
  | zero =>
    rw [visit_zero] at hrun
    exact absurd hrun (by simp)
  | succ fuel =>
    rw [visit_succ] at hrun
    have post := visitLoop_spec fuel rng i (carveMark m c) c n j hrun (mark_pre hpre)
    refine ⟨post.wEq, post.hEq, ?_, ?_, ?_, ?_, ?_, ?_, post.inv, ?_⟩
    · intro e
      exact (post.coordsEq e).trans (carveMark_coords m c e)
    · intro e
      exact (post.revEq e).trans (carveMark_revealed m c e)
    · intro e hv
      exact post.visMono e ((carveMark_visited_iff m c e).mpr (Or.inl hv))
    · intro e hp
      exact post.pathMono e ((carveMark_path_iff m c e).mpr (Or.inl hp))
    · exact post.visMono c ((carveMark_visited_iff m c c).mpr (Or.inr rfl))
    · intro e hv
      rcases post.newClosed e hv with h1 | h1
      · rcases (carveMark_visited_iff m c e).mp h1 with h0 | h0
        · exact Or.inl h0
        · refine Or.inr ?_
          rw [h0]
          exact post.selfClosed
      · exact Or.inr h1
    · have e1 := post.count
      have e2 : numVisited (carveMark m c) = numVisited m + 1 :=
        numVisited_carveMark m c hpre.codd hpre.cunvis
      have e3 : numHall (carveMark m c) = numHall m :=
        numHall_carveMark m c hpre.codd
      omega

/-- If the visited set is closed under the bound-checked lattice moves and
contains the start `(1, 1)`, then it covers the whole interior odd
lattice. -/
theorem visited_spread (m : Mystery_Maze) (hdims : DimsOK m)
    (hcl : ∀ e, (m.grid e).visited = true → ClosedAt m e)
    (h11 : (m.grid (1, 1)).visited = true) :
    ∀ c, oddCell m.width m.height c → (m.grid c).visited = true := by
  obtain ⟨hw3, hh3, hwodd, hhodd⟩ := hdims
  have key : ∀ k : Nat, ∀ x y : Int, (x + y).toNat ≤ k →
      oddCell m.width m.height (x, y) → (m.grid (x, y)).visited = true := by
    intro k
    induction k with
    | zero =>
      intro x y hk hodd
      rw [oddCell_mk] at hodd
      exfalso
      omega
    | succ k ihk =>
      intro x y hk hodd
      rw [oddCell_mk] at hodd
      by_cases hx : x = 1
      · by_cases hy : y = 1
        · subst hx
          subst hy
          exact h11
        · have hodd2 : oddCell m.width m.height (x, y - 2) := by
            rw [oddCell_mk]
            omega
          have hvis2 : (m.grid (x, y - 2)).visited = true :=
            ihk x (y - 2) (by omega) hodd2
          have hcl2 := hcl (x, y - 2) hvis2 Direction.SOUTH
            (by show y - 2 < m.height - 2; omega)
          have heq : next_tile_coords (x, y - 2).1 (x, y - 2).2 Direction.SOUTH
              = (x, y) := by
            show ((x : Int), y - 2 + 2) = (x, y)
            rw [Prod.mk.injEq]
            exact ⟨rfl, by omega⟩
          rw [heq] at hcl2
          exact hcl2
      · have hodd2 : oddCell m.width m.height (x - 2, y) := by
          rw [oddCell_mk]
          omega
        have hvis2 : (m.grid (x - 2, y)).visited = true :=
          ihk (x - 2) y (by omega) hodd2
        have hcl2 := hcl (x - 2, y) hvis2 Direction.EAST
          (by show x - 2 < m.width - 2; omega)
        have heq : next_tile_coords (x - 2, y).1 (x - 2, y).2 Direction.EAST
            = (x, y) := by
          show ((x : Int) - 2 + 2, y) = (x, y)
          rw [Prod.mk.injEq]
          exact ⟨by omega, rfl⟩
        rw [heq] at hcl2
        exact hcl2
  intro c hodd
  exact key ((c.1 + c.2).toNat) c.1 c.2 le_rfl hodd

end MysteryMaze

namespace MysteryMaze

theorem normalize_dim_spec (n : Int) :
    3 ≤ normalize_dim n ∧ normalize_dim n % 2 = 1 := by
  unfold normalize_dim
  split_ifs <;> omega

theorem punch_width (m : Mystery_Maze) : (punch m).width = m.width := rfl

theorem punch_height (m : Mystery_Maze) : (punch m).height = m.height := rfl

theorem punch_grid_other (m : Mystery_Maze) (e : Coords) (he1 : e ≠ exit_coords)
    (he2 : e ≠ entry_coords_of m.width m.height) : (punch m).grid e = m.grid e := by
  simp [punch, updateGrid, he1, he2]

theorem punch_visited (m : Mystery_Maze) (e : Coords) :
    ((punch m).grid e).visited = (m.grid e).visited := by
  simp only [punch, updateGrid]
  split_ifs with ha hb hc <;> simp_all

theorem punch_coords (m : Mystery_Maze) (e : Coords) :
    ((punch m).grid e).coords = (m.grid e).coords := by
  simp only [punch, updateGrid]
  split_ifs with ha hb hc <;> simp_all

theorem punch_path_mono (m : Mystery_Maze) (e : Coords)
    (hp : (m.grid e).path = true) : ((punch m).grid e).path = true := by
  simp only [punch, updateGrid]
  split_ifs with ha hb hc <;> simp_all

theorem punch_entry_flags (m : Mystery_Maze) :
    ((punch m).grid (entry_coords_of m.width m.height)).path = true ∧
    ((punch m).grid (entry_coords_of m.width m.height)).revealed = true := by
  constructor <;> simp [punch, updateGrid]

theorem punch_exit_flags (m : Mystery_Maze)
    (hne : ¬ (exit_coords = entry_coords_of m.width m.height)) :
    ((punch m).grid exit_coords).path = true ∧
    ((punch m).grid exit_coords).revealed = true := by
  constructor <;> simp [punch, updateGrid, hne]

theorem bounds_ne_exit_entry (w h : Int) (c : Coords) (h1 : 1 ≤ c.2)
    (h2 : c.2 ≤ h - 2) : c ≠ exit_coords ∧ c ≠ entry_coords_of w h := by
  constructor
  · intro heq
    subst heq
    simp only [exit_coords] at h1
    omega
  · intro heq
    subst heq
    simp only [entry_coords_of] at h2
    omega

theorem exit_ne_entry (w h : Int) (hh : 3 ≤ h) :
    ¬ (exit_coords = entry_coords_of w h) := by
  intro heq
  simp only [exit_coords, entry_coords_of, Prod.mk.injEq] at heq
  omega

end MysteryMaze

namespace MysteryMaze

theorem mystery_maze_new_eq (w h : Int) (rng : Nat → Nat) (fuel : Nat) :
    mystery_maze_new w h rng fuel =
      match visit fuel rng 0
          { width := normalize_dim w, height := normalize_dim h, grid := init_grid }
          (1, 1) with
      | none => none
      | some mi => some (punch mi.1) := rfl

theorem init_numVisited (w h : Int) :
    numVisited { width := w, height := h, grid := init_grid } = 0 := by
  unfold numVisited
  rw [Finset.card_eq_zero, Finset.filter_eq_empty_iff]
  intro x _
  simp [init_grid]

theorem init_numHall (w h : Int) :
    numHall { width := w, height := h, grid := init_grid } = 0 := by
  unfold numHall
  rw [Finset.card_eq_zero, Finset.filter_eq_empty_iff]
  intro x _
  simp [init_grid]

theorem init_visitPre (w h : Int) :
    VisitPre { width := normalize_dim w, height := normalize_dim h, grid := init_grid }
      (1, 1) := by
  obtain ⟨hw3, hwodd⟩ := normalize_dim_spec w
  obtain ⟨hh3, hhodd⟩ := normalize_dim_spec h
  refine ⟨⟨hw3, hh3, hwodd, hhodd⟩, ?_, rfl, ?_, ?_, ?_, ?_, Or.inl (fun e => rfl)⟩
  · show oddCell (normalize_dim w) (normalize_dim h) (1, 1)
    rw [oddCell_mk]
    omega
  · intro e he
    exact absurd he (by simp [init_grid])
  · intro e he
    exact absurd he (by simp [init_grid])
  · intro e he
    exact absurd he (by simp [init_grid])
  · intro a b ha _
    exact absurd ha (by simp [init_grid])

/-- Everything the generation claims need, established for the punched
maze returned by the constructor. -/
theorem gen_master (w h : Int) (rng : Nat → Nat) (fuel : Nat) (m : Mystery_Maze)
    (hgen : mystery_maze_new w h rng fuel = some m) :
    m.width = normalize_dim w ∧ m.height = normalize_dim h ∧ GenResult m := by
  rw [mystery_maze_new_eq] at hgen
  rcases hv : visit fuel rng 0
      { width := normalize_dim w, height := normalize_dim h, grid := init_grid }
      (1, 1) with _ | mi
  · rw [hv] at hgen
    exact absurd hgen (by simp)
  · rw [hv] at hgen
    have hm : m = punch mi.1 := by
      rw [Option.some.injEq] at hgen
      exact hgen.symm
    subst hm
    have pre := init_visitPre w h
    have post := visit_spec fuel rng 0 _ (1, 1) mi.1 mi.2 hv pre
    obtain ⟨hw3, hwodd⟩ := normalize_dim_spec w
    obtain ⟨hh3, hhodd⟩ := normalize_dim_spec h
    have hWm : mi.1.width = normalize_dim w := post.wEq
    have hHm : mi.1.height = normalize_dim h := post.hEq
    have hdimsOK : DimsOK mi.1 :=
      ⟨by rw [hWm]; exact hw3, by rw [hHm]; exact hh3,
       by rw [hWm]; exact hwodd, by rw [hHm]; exact hhodd⟩
    have hclosure : ∀ e, (mi.1.grid e).visited = true → ClosedAt mi.1 e := by
      intro e hv2
      rcases post.newClosed e hv2 with h0 | h0
      · exact absurd h0 (by simp [init_grid])
      · exact h0
    have hspread := visited_spread mi.1 hdimsOK hclosure post.cvis
    have hcount : numVisited mi.1 = numHall mi.1 + 1 := by
      have hc := post.count
      rw [init_numVisited, init_numHall] at hc
      omega
    have hvfull : (oddFinset mi.1.width mi.1.height).filter
        (fun c => (mi.1.grid c).visited = true) = oddFinset mi.1.width mi.1.height :=
      Finset.filter_eq_self.mpr (fun x hx => hspread x ((mem_oddFinset _ _ _).mp hx))
    have hpfull : (oddFinset mi.1.width mi.1.height).filter
        (fun c => (mi.1.grid c).path = true) = oddFinset mi.1.width mi.1.height :=
      Finset.filter_eq_self.mpr (fun x hx =>
        post.inv.vis_path x (hspread x ((mem_oddFinset _ _ _).mp hx)))
    have hnumvis : numVisited mi.1 = (oddFinset mi.1.width mi.1.height).card := by
      unfold numVisited
      rw [hvfull]
    have hne : ¬ (exit_coords = entry_coords_of mi.1.width mi.1.height) :=
      exit_ne_entry _ _ (by rw [hHm]; exact hh3)
    have hinterior : ∀ e : Coords, 1 ≤ e.2 → e.2 ≤ mi.1.height - 2 →
        (punch mi.1).grid e = mi.1.grid e := by
      intro e he1 he2
      obtain ⟨q1, q2⟩ := bounds_ne_exit_entry mi.1.width mi.1.height e he1 he2
      exact punch_grid_other mi.1 e q1 q2
    refine ⟨by rw [punch_width]; exact hWm, by rw [punch_height]; exact hHm,
      hdimsOK, ?_, ?_, ?_, ?_, ?_, ?_, ?_, ?_, ?_, ?_, ?_⟩
    · intro c
      exact (punch_coords mi.1 c).trans (post.coordsEq c)
    · intro c hodd
      have hodd2 : oddCell mi.1.width mi.1.height c := hodd
      obtain ⟨a1, a2, a3, a4, a5, a6⟩ := hodd2
      have hodd3 : oddCell mi.1.width mi.1.height c := ⟨a1, a2, a3, a4, a5, a6⟩
      have hgr := hinterior c a3 a4
      constructor
      · show ((punch mi.1).grid c).path = true
        rw [hgr]
        exact post.inv.vis_path c (hspread c hodd3)
      · show ((punch mi.1).grid c).visited = true
        rw [punch_visited]
        exact hspread c hodd3
    · show ((oddFinset mi.1.width mi.1.height).filter
          (fun c => ((punch mi.1).grid c).path = true)).card
        = (oddFinset mi.1.width mi.1.height).card
      have hagree : ∀ e ∈ oddFinset mi.1.width mi.1.height,
          ((mi.1.grid e).path = true ↔ ((punch mi.1).grid e).path = true) := by
        intro e he
        obtain ⟨a1, a2, a3, a4, a5, a6⟩ := (mem_oddFinset _ _ _).mp he
        rw [hinterior e a3 a4]
      rw [filter_card_same (oddFinset mi.1.width mi.1.height) _ _ hagree, hpfull]
    · show ((oddFinset mi.1.width mi.1.height).filter
          (fun c => ((punch mi.1).grid c).visited = true)).card
        = (oddFinset mi.1.width mi.1.height).card
      have hagree : ∀ e ∈ oddFinset mi.1.width mi.1.height,
          ((mi.1.grid e).visited = true ↔ ((punch mi.1).grid e).visited = true) := by
        intro e _
        rw [punch_visited]
      rw [filter_card_same (oddFinset mi.1.width mi.1.height) _ _ hagree, hvfull]
    · show ((mixedFinset mi.1.width mi.1.height).filter
          (fun c => ((punch mi.1).grid c).path = true)).card + 1
        = (oddFinset mi.1.width mi.1.height).card
      have hagree : ∀ e ∈ mixedFinset mi.1.width mi.1.height,
          ((mi.1.grid e).path = true ↔ ((punch mi.1).grid e).path = true) := by
        intro e he
        obtain ⟨a1, a2, a3, a4, a5⟩ := (mem_mixedFinset _ _ _).mp he
        rw [hinterior e a3 a4]
      rw [filter_card_same (mixedFinset mi.1.width mi.1.height) _ _ hagree]
      have hnh : numHall mi.1 + 1 = (oddFinset mi.1.width mi.1.height).card := by
        omega
      exact hnh
    · intro a b ha hb
      have ha2 : oddCell mi.1.width mi.1.height a := ha
      have hb2 : oddCell mi.1.width mi.1.height b := hb
      exact reach_mono mi.1 (punch mi.1) rfl rfl (punch_path_mono mi.1)
        (post.inv.conn a b (hspread a ha2) (hspread b hb2))
    · intro c hb hne1 hne2
      have hb2 : c.1 = 0 ∨ c.1 = mi.1.width - 1 ∨ c.2 = 0 ∨ c.2 = mi.1.height - 1 := hb
      rw [punch_grid_other mi.1 c hne1 hne2]
      cases hp : (mi.1.grid c).path
      · rfl
      · exfalso
        obtain ⟨d1, d2, d3, d4⟩ := hdimsOK
        rcases post.inv.path_char c hp with hv2 | hgood
        · have ho := post.inv.vis_odd c hv2
          unfold oddCell at ho
          omega
        · obtain ⟨hmix, _, _, _, _⟩ := hgood
          unfold mixedCell at hmix
          omega
    · exact (punch_exit_flags mi.1 hne).1
    · exact (punch_exit_flags mi.1 hne).2
    · exact (punch_entry_flags mi.1).1
    · exact (punch_entry_flags mi.1).2

end MysteryMaze

namespace MysteryMaze

theorem take_step_width (m : Mystery_Maze) (pos : Coords) (dir : Direction) :
    (take_step m pos dir).1.width = m.width := by
  by_cases hb : inBounds m (dest_coords pos dir)
  · rw [take_step_of_in_bounds m pos dir hb]
    rfl
  · rw [take_step_of_out_of_bounds m pos dir hb]

theorem take_step_height (m : Mystery_Maze) (pos : Coords) (dir : Direction) :
    (take_step m pos dir).1.height = m.height := by
  by_cases hb : inBounds m (dest_coords pos dir)
  · rw [take_step_of_in_bounds m pos dir hb]
    rfl
  · rw [take_step_of_out_of_bounds m pos dir hb]

theorem take_step_path_eq (m : Mystery_Maze) (pos : Coords) (dir : Direction)
    (e : Coords) : ((take_step m pos dir).1.grid e).path = (m.grid e).path := by
  by_cases hb : inBounds m (dest_coords pos dir)
  · rw [take_step_of_in_bounds m pos dir hb]
    by_cases he : e = dest_coords pos dir
    · subst he
      simp [reveal_at, updateGrid_self]
    · simp [reveal_at, updateGrid_other _ _ _ _ he]
  · rw [take_step_of_out_of_bounds m pos dir hb]

theorem run_game_loop_width (g : Game) (L : List (Option Direction)) :
    ((run_game_loop g L).1).maze.width = g.maze.width := by
  induction L generalizing g with
  | nil => rfl
  | cons inp rest ih =>
    rw [run_game_loop]
    split
    · cases inp with
      | none => rfl
      | some dir => exact take_step_width g.maze g.player_position dir
    · rw [ih]
      cases inp with
      | none => rfl
      | some dir => exact take_step_width g.maze g.player_position dir

theorem run_game_loop_height (g : Game) (L : List (Option Direction)) :
    ((run_game_loop g L).1).maze.height = g.maze.height := by
  induction L generalizing g with
  | nil => rfl
  | cons inp rest ih =>
    rw [run_game_loop]
    split
    · cases inp with
      | none => rfl
      | some dir => exact take_step_height g.maze g.player_position dir
    · rw [ih]
      cases inp with
      | none => rfl
      | some dir => exact take_step_height g.maze g.player_position dir

theorem run_game_loop_path (g : Game) (L : List (Option Direction)) (e : Coords) :
    (((run_game_loop g L).1).maze.grid e).path = (g.maze.grid e).path := by
  induction L generalizing g with
  | nil => rfl
  | cons inp rest ih =>
    rw [run_game_loop]
    split
    · cases inp with
      | none => rfl
      | some dir => exact take_step_path_eq g.maze g.player_position dir e
    · rw [ih]
      cases inp with
      | none => rfl
      | some dir => exact take_step_path_eq g.maze g.player_position dir e

theorem run_game_loop_coords (g : Game) (L : List (Option Direction)) (e : Coords) :
    (((run_game_loop g L).1).maze.grid e).coords = (g.maze.grid e).coords := by
  induction L generalizing g with
  | nil => rfl
  | cons inp rest ih =>
    rw [run_game_loop]
    split
    · cases inp with
      | none => rfl
      | some dir => exact take_step_coords_eq g.maze g.player_position dir e
    · rw [ih]
      cases inp with
      | none => rfl
      | some dir => exact take_step_coords_eq g.maze g.player_position dir e

end MysteryMaze

namespace MysteryMaze

/-- With fuel exceeding the number of unvisited lattice cells the loop
always terminates normally: the fuel is an artifact of the embedding, not
of the algorithm. -/
theorem visitLoop_complete : ∀ (fuel : Nat) (rng : Nat → Nat) (i : Nat)
    (m : Mystery_Maze) (c : Coords), LoopPre m c → numUnvisited m < fuel →
    (visitLoop fuel rng i m c).isSome = true := by
  intro fuel
  induction fuel with
  | zero =>
    intro rng i m c _ hf
    exact absurd hf (by omega)
  | succ fuel ih =>
    intro rng i m c hpre hf
    rcases hns : unvisited_neighbors m c.1 c.2 with _ | ⟨d, ds⟩
    · rw [visitLoop_succ_nil fuel rng i m c hns]
      rfl
    · rw [visitLoop_succ_cons fuel rng i m c d ds hns]
      generalize hgd : (d :: ds).getD (rng i % (d :: ds).length) d = dd
      have hmem : dd ∈ unvisited_neighbors m c.1 c.2 := by
        rw [hns, ← hgd]
        exact getD_mem_cons d ds _
      obtain ⟨hchk, hnv⟩ := (mem_unvisited_neighbors m c.1 c.2 dd).mp hmem
      obtain ⟨hvp, hH, hV, hU⟩ := hall_pre hpre dd hchk hnv
      have hlp1 : LoopPre
          (carveMark (carveHall m (hallway_coords c.1 c.2 dd))
            (next_tile_coords c.1 c.2 dd))
          (next_tile_coords c.1 c.2 dd) := mark_pre hvp
      have hU2 : numUnvisited
          (carveMark (carveHall m (hallway_coords c.1 c.2 dd))
            (next_tile_coords c.1 c.2 dd)) + 1 = numUnvisited m := by
        rw [numUnvisited_carveMark _ _ hvp.codd hvp.cunvis, hU]
      have hs1 := ih rng (i + 1)
        (carveMark (carveHall m (hallway_coords c.1 c.2 dd))
          (next_tile_coords c.1 c.2 dd))
        (next_tile_coords c.1 c.2 dd) hlp1 (by omega)
      rcases hinner : visitLoop fuel rng (i + 1)
          (carveMark (carveHall m (hallway_coords c.1 c.2 dd))
            (next_tile_coords c.1 c.2 dd))
          (next_tile_coords c.1 c.2 dd) with _ | mi
      · rw [hinner] at hs1
        exact absurd hs1 (by simp)
      · have post1 := visitLoop_spec fuel rng (i + 1) _ _ mi.1 mi.2 hinner hlp1
        have hcvis1 : ((carveMark (carveHall m (hallway_coords c.1 c.2 dd))
            (next_tile_coords c.1 c.2 dd)).grid c).visited = true :=
          (carveMark_visited_iff _ _ c).mpr
            (Or.inl (by rw [carveHall_visited]; exact hpre.cvis))
        have hlp2 : LoopPre mi.1 c := by
          obtain ⟨d1, d2, d3, d4⟩ := hpre.dims
          refine ⟨⟨?_, ?_, ?_, ?_⟩, ?_, ?_, post1.inv⟩
          · rw [post1.wEq]; exact d1
          · rw [post1.hEq]; exact d2
          · rw [post1.wEq]; exact d3
          · rw [post1.hEq]; exact d4
          · have hcodd : oddCell m.width m.height c := hpre.codd
            rw [post1.wEq, post1.hEq]
            exact hcodd
          · exact post1.visMono c hcvis1
        have hUle : numUnvisited mi.1 ≤ numUnvisited
            (carveMark (carveHall m (hallway_coords c.1 c.2 dd))
              (next_tile_coords c.1 c.2 dd)) :=
          numUnvisited_mono _ mi.1 post1.wEq post1.hEq post1.visMono
        have hs2 := ih rng mi.2 mi.1 c hlp2 (by omega)
        simpa only [hinner] using hs2

theorem visit_complete (rng : Nat → Nat) (i : Nat) (m : Mystery_Maze) (c : Coords)
    (hpre : VisitPre m c) :
    (visit (numUnvisited m + 1) rng i m c).isSome = true := by
  rw [visit_succ]
  have hU : numUnvisited (carveMark m c) + 1 = numUnvisited m :=
    numUnvisited_carveMark m c hpre.codd hpre.cunvis
  exact visitLoop_complete (numUnvisited m) rng i _ c (mark_pre hpre) (by omega)

/-- For every width, height and random sequence some fuel value makes the
constructor return a maze: generation always completes. -/
theorem mystery_maze_new_completes (w h : Int) (rng : Nat → Nat) :
    ∃ fuel m, mystery_maze_new w h rng fuel = some m := by
  have pre := init_visitPre w h
  have hs := visit_complete rng 0
    { width := normalize_dim w, height := normalize_dim h, grid := init_grid } (1, 1) pre
  obtain ⟨mi, hv⟩ := Option.isSome_iff_exists.mp hs
  exact ⟨_, punch mi.1, by rw [mystery_maze_new_eq, hv]⟩

theorem opt_eq_some_getD {α : Type} (o : Option α) (d : α) (h : o.isSome = true) :
    o = some (o.getD d) := by
  cases o with
  | none => exact absurd h (by simp)
  | some a => rfl

theorem M5_gen : mystery_maze_new 5 5 (fun _ => 0) 100 = some M5 :=
  opt_eq_some_getD _ M7 (by decide)

/-- C1: after generation completes, every interior odd-odd lattice cell is
carved and visited, the number of carved path cells among the interior odd
lattice equals the number of cells visited by the traversal, the carved
adjacency graph on the lattice is connected, and its carved hallways
(edges) number exactly one less than its nodes. -/
theorem generation_forms_spanning_tree (w h : Int) (rng : Nat → Nat) (fuel : Nat)
    (m : Mystery_Maze) (hgen : mystery_maze_new w h rng fuel = some m) :
    (∀ c, oddCell m.width m.height c →
      (m.grid c).path = true ∧ (m.grid c).visited = true) ∧
    ((oddFinset m.width m.height).filter (fun c => (m.grid c).path = true)).card
      = ((oddFinset m.width m.height).filter
          (fun c => (m.grid c).visited = true)).card ∧
    (∀ a b, oddCell m.width m.height a → oddCell m.width m.height b →
      Relation.ReflTransGen (carvedAdj m) a b) ∧
    ((mixedFinset m.width m.height).filter (fun c => (m.grid c).path = true)).card + 1
      = ((oddFinset m.width m.height).filter (fun c => (m.grid c).path = true)).card := by
  obtain ⟨hw, hh, gr⟩ := gen_master w h rng fuel m hgen
  refine ⟨gr.oddCarved, ?_, gr.conn, ?_⟩
  · rw [gr.cardPathOdd]
    exact gr.cardVisitedOdd.symm
  · rw [gr.cardPathOdd]
    exact gr.cardHall

theorem generation_forms_spanning_tree_witness :
    ((mixedFinset M5.width M5.height).filter (fun c => (M5.grid c).path = true)).card + 1
      = ((oddFinset M5.width M5.height).filter
          (fun c => (M5.grid c).path = true)).card :=
  (generation_forms_spanning_tree 5 5 (fun _ => 0) 100 M5 M5_gen).2.2.2

/-- C4: after generation, every tile on the outer boundary other than the
entry `(width-2, height-1)` and the exit `(1, 0)` is a wall. -/
theorem generation_boundary_walls (w h : Int) (rng : Nat → Nat) (fuel : Nat)
    (m : Mystery_Maze) (hgen : mystery_maze_new w h rng fuel = some m) (c : Coords)
    (hb : c.1 = 0 ∨ c.1 = m.width - 1 ∨ c.2 = 0 ∨ c.2 = m.height - 1)
    (hne1 : c ≠ (1, 0)) (hne2 : c ≠ (m.width - 2, m.height - 1)) :
    (m.grid c).path = false := by
  obtain ⟨_, _, gr⟩ := gen_master w h rng fuel m hgen
  exact gr.boundaryWall c hb hne1 hne2

theorem generation_boundary_walls_witness : (M5.grid (0, 0)).path = false :=
  generation_boundary_walls 5 5 (fun _ => 0) 100 M5 M5_gen (0, 0)
    (Or.inl rfl) (by decide) (by decide)

/-- C5: the entry tile sits at `(width-2, height-1)` and the exit tile at
`(1, 0)`; both are path tiles and revealed immediately after construction
and remain so at every later point of a session. -/
theorem entry_exit_invariant (w h : Int) (rng : Nat → Nat) (fuel : Nat)
    (m : Mystery_Maze) (hgen : mystery_maze_new w h rng fuel = some m)
    (p0 : Coords) (L : List (Option Direction)) (g : Game)
    (hg : g = (run_game_loop { maze := m, player_position := p0 } L).1) :
    g.maze.width = m.width ∧ g.maze.height = m.height ∧
    (exit_tile g.maze).coords = (1, 0) ∧
    (entry_tile g.maze).coords = (m.width - 2, m.height - 1) ∧
    (exit_tile g.maze).path = true ∧ (exit_tile g.maze).revealed = true ∧
    (entry_tile g.maze).path = true ∧ (entry_tile g.maze).revealed = true := by
  obtain ⟨_, _, gr⟩ := gen_master w h rng fuel m hgen
  subst hg
  have hW := run_game_loop_width { maze := m, player_position := p0 } L
  have hH := run_game_loop_height { maze := m, player_position := p0 } L
  have hent : entry_coords_of
      ((run_game_loop { maze := m, player_position := p0 } L).1).maze.width
      ((run_game_loop { maze := m, player_position := p0 } L).1).maze.height
      = entry_coords_of m.width m.height := by
    rw [entry_coords_of, entry_coords_of, hW, hH]
  refine ⟨hW, hH, ?_, ?_, ?_, ?_, ?_, ?_⟩
  · rw [exit_tile, run_game_loop_coords]
    exact gr.coordsId exit_coords
  · rw [entry_tile, hent, run_game_loop_coords]
    exact gr.coordsId (entry_coords_of m.width m.height)
  · rw [exit_tile, run_game_loop_path]
    exact gr.exitPath
  · rw [exit_tile]
    exact run_loop_revealed_mono { maze := m, player_position := p0 } L
      exit_coords gr.exitRev
  · rw [entry_tile, hent, run_game_loop_path]
    exact gr.entryPath
  · rw [entry_tile, hent]
    exact run_loop_revealed_mono { maze := m, player_position := p0 } L
      (entry_coords_of m.width m.height) gr.entryRev

theorem entry_exit_invariant_witness :
    (exit_tile ((run_game_loop { maze := M5, player_position := (3, 4) } []).1).maze).path
      = true :=
  (entry_exit_invariant 5 5 (fun _ => 0) 100 M5 M5_gen (3, 4) [] _ rfl).2.2.2.2.1

end MysteryMaze
